import Mathlib

/-!
Shallow embedding of the ComicVine synchronization and caching engine of
weeklypulls-data (`weeklypulls/apps/comicvine/services.py`,
`weeklypulls/apps/comicvine/models.py`, `weeklypulls/apps/pulls/views.py`).

Modelling conventions:
* Calendar dates are day numbers (`Nat`); timestamps are seconds (`Int`).
  `timedelta(hours=1)` is 3600, `timedelta(days=30)` is 2592000, etc.
* Adapter payloads arrive already normalized to typed optional fields
  (the Python `_parse_date` / `_parse_datetime_utc` helpers normalize
  str/date/datetime inputs; here the date fields are `Option Int` from the
  start, so those helpers are the identity on the model's payloads).
* The remote adapter is modelled as a total function from query parameters
  to the returned records.  `self.cv` being `None` (missing API key) is the
  explicit `configured : Bool` argument.
* Django's database writes are modelled on association lists keyed by the
  external id (`cv_id`), with `update_or_create` as `upsert`.  The NOT NULL
  constraints of `comicvine_volumes` (`publisher` per migration
  0011_make_publisher_required_and_cleanup, `cache_expires` as a
  `DateTimeField` without `null=True`) are modelled by `saveVolumeOK`:
  a `save()` of a record violating them raises `IntegrityError`.
-/

namespace WeeklyPulls

/-- Image variant object attached to an issue payload (`s_issue.image`).
Field names follow the attributes read by `ComicVineService._get_img`. -/
structure CVImage where
  icon_url : Option String := none
  thumbnail : Option String := none
  tiny_url : Option String := none
  small_url : Option String := none
  medium_url : Option String := none
  screen_url : Option String := none
  super_url : Option String := none
  large_screen_url : Option String := none
  original_url : Option String := none
deriving DecidableEq

/-- Publisher reference nested in a volume payload. -/
structure SPubRef where
  id : Option Nat := none
  name : Option String := none
deriving DecidableEq

/-- Volume reference nested in an issue payload (`s_issue.volume`). -/
structure SVolRef where
  id : Option Nat := none
  name : Option String := none
  publisher : Option SPubRef := none
deriving DecidableEq

/-- Issue record returned by the remote adapter (`self.cv.list_issues`). -/
structure SIssue where
  id : Nat := 0
  name : Option String := none
  number : Option String := none
  store_date : Option Int := none
  cover_date : Option Int := none
  date_added : Option Int := none
  date_last_updated : Option Int := none
  description : Option String := none
  api_url : Option String := none
  site_url : Option String := none
  image : Option CVImage := none
  volume : Option SVolRef := none
deriving DecidableEq

/-- Volume record returned by `self.cv.get_volume`. -/
structure SVolume where
  name : Option String := none
  start_year : Option Int := none
  issue_count : Option Nat := none
  publisher : Option SPubRef := none
deriving DecidableEq

/-- `getattr(img, attr, None) if img is not None else None`
(`ComicVineService._get_img`). -/
def getImg (img : Option CVImage) (attr : CVImage → Option String) : Option String :=
  match img with
  | none => none
  | some i => attr i

/-- Python `a or b` for an optional string `a` and a fallback string `b`:
`None` and the empty string are falsy. -/
def orStr (a : Option String) (b : String) : String :=
  match a with
  | none => b
  | some s => if s = "" then b else s

/-- Python `a or b` on two optional dates: a `date` object is always truthy,
so this is `a` when present, else `b`. -/
def orOpt (a b : Option Int) : Option Int :=
  match a with
  | none => b
  | some x => some x

/-- Python `a or b` on two optional strings: `None` and `""` are falsy, so
`a` wins exactly when it is a non-empty string. -/
def pyOr (a b : Option String) : Option String :=
  match a with
  | none => b
  | some s => if s = "" then b else some s

/-- The row content written for an issue by
`ComicVineIssue.objects.update_or_create(cv_id=..., defaults=defaults)`.
Field set mirrors the `defaults` dict of
`ComicVineService._build_issue_defaults`. -/
structure IssueDefaults where
  name : Option String
  number : Option String
  volume : Nat
  date : Option Int
  description : Option String
  date_added : Option Int
  date_last_updated : Option Int
  api_url : Option String
  site_url : Option String
  cache_expires : Int
  image_icon_url : Option String
  image_thumbnail_url : Option String
  image_tiny_url : Option String
  image_small_url : Option String
  image_medium_url : Option String
  image_screen_url : Option String
  image_super_url : Option String
  image_large_screen_url : Option String
  image_original_url : Option String
deriving DecidableEq

/-- `ComicVineService._build_issue_defaults(s_issue, volume)`.
`volumeId` stands for the `volume` foreign key; `now` is `timezone.now()`
(`timedelta(days=30)` = 2592000 seconds). -/
def buildIssueDefaults (s : SIssue) (volumeId : Nat) (now : Int) : IssueDefaults :=
  let store_date := s.store_date
  let cover_date := s.cover_date
  let img := s.image
  { name := s.name
    number := s.number
    volume := volumeId
    date := orOpt store_date cover_date
    description := s.description
    date_added := s.date_added
    date_last_updated := s.date_last_updated
    api_url := s.api_url
    site_url := s.site_url
    cache_expires := now + 2592000
    image_icon_url := getImg img CVImage.icon_url
    image_thumbnail_url := getImg img CVImage.thumbnail
    image_tiny_url := getImg img CVImage.tiny_url
    image_small_url := getImg img CVImage.small_url
    image_medium_url :=
      pyOr (getImg img CVImage.medium_url)
        (pyOr (getImg img CVImage.super_url)
          (pyOr (getImg img CVImage.screen_url)
            (pyOr (getImg img CVImage.small_url)
              (pyOr (getImg img CVImage.original_url)
                (pyOr (getImg img CVImage.thumbnail)
                  (pyOr (getImg img CVImage.tiny_url)
                    (getImg img CVImage.icon_url)))))))
    image_screen_url := getImg img CVImage.screen_url
    image_super_url := getImg img CVImage.super_url
    image_large_screen_url := getImg img CVImage.large_screen_url
    image_original_url := getImg img CVImage.original_url }

/-! ### Cache-store primitives

Django tables keyed by `cv_id` are association lists; `update_or_create`
is `upsert` (replace the row with that key, else insert a new row). -/

/-- Keys (external ids) present in a store. -/
def keysOf {D : Type} (s : List (Nat × D)) : List Nat :=
  s.map Prod.fst

/-- Row lookup by external id (`objects.get(cv_id=k)`; `none` models
`DoesNotExist`). -/
def lookupRow {D : Type} (s : List (Nat × D)) (k : Nat) : Option D :=
  (s.find? (fun p => p.1 = k)).map Prod.snd

/-- `objects.update_or_create(cv_id=k, defaults=d)`: update the existing row
in place, else insert a new one.  The external id is the natural key, so
paired with `keysOf` nodup this can never create a duplicate row. -/
def upsert {D : Type} (s : List (Nat × D)) (k : Nat) (d : D) : List (Nat × D) :=
  if k ∈ keysOf s then
    s.map (fun p => if p.1 = k then (k, d) else p)
  else
    s ++ [(k, d)]

/-! ### Cached volume rows and the freshness checks
(`ComicVineCacheModel` / `ComicVineVolume` in models.py). -/

/-- A `comicvine_volumes` row (plus the cache metadata of
`ComicVineCacheModel`).  `publisher` is the FK id; `none` means unset, which
the database forbids persisting (migration 0011).  `cache_expires` is
`none` only on unsaved in-memory placeholders, since the column is NOT
NULL. -/
structure VolRecord where
  cv_id : Nat
  name : String
  start_year : Option Int := none
  count_of_issues : Nat := 0
  publisher : Option Nat := none
  cache_expires : Option Int := none
  api_fetch_failed : Bool := false
  api_fetch_failure_count : Nat := 0
  api_last_failure : Option Int := none
deriving DecidableEq

/-- `ComicVineCacheModel.is_cache_expired`: `timezone.now() > cache_expires`.
A row loaded from the database always carries a `cache_expires` value (NOT
NULL column); the `none` case is unreachable there and treated as expired. -/
def isCacheExpired (v : VolRecord) (now : Int) : Bool :=
  match v.cache_expires with
  | some ce => decide (ce < now)
  | none => true

/-- `ComicVineCacheModel.mark_api_failure`. -/
def markApiFailure (v : VolRecord) (now : Int) : VolRecord :=
  { v with api_fetch_failed := true
           api_fetch_failure_count := v.api_fetch_failure_count + 1
           api_last_failure := some now }

/-- `ComicVineCacheModel.reset_api_failure`. -/
def resetApiFailure (v : VolRecord) : VolRecord :=
  { v with api_fetch_failed := false
           api_fetch_failure_count := 0
           api_last_failure := none }

/-- The NOT NULL constraints the database enforces when saving a volume row:
`publisher` (required FK since migration 0011) and `cache_expires`
(`DateTimeField()` without `null=True`).  A `save()` of a record violating
them raises `IntegrityError`. -/
def saveVolumeOK (v : VolRecord) : Bool :=
  v.publisher.isSome && v.cache_expires.isSome

/-- The freshness test of `ComicVineService.get_volume` (services.py lines
64-71): `not force_refresh and not volume.is_cache_expired() and not
volume.api_fetch_failed`. -/
def isFresh (v : VolRecord) (now : Int) (forceRefresh : Bool) : Bool :=
  !forceRefresh && !(isCacheExpired v now) && !v.api_fetch_failed

/-- `ComicVinePublisher.objects.get_or_create(cv_id=pid, defaults={"name":
pub_name or "Publisher {pid}"})` followed by the conditional rename
`if pub_name and publisher_obj.name != pub_name`. -/
def pubGetOrCreate (pubs : List (Nat × String)) (pid : Nat) (pname : Option String) :
    List (Nat × String) :=
  match lookupRow pubs pid with
  | some existing =>
    match pname with
    | some n => if n ≠ "" ∧ existing ≠ n then upsert pubs pid n else pubs
    | none => pubs
  | none => pubs ++ [(pid, orStr pname ("Publisher " ++ toString pid))]

/-! ### `ComicVineService.get_volume` -/

/-- Adapter failure modes: `ServiceError` raised by Simyan, or any other
exception (`except Exception`). -/
inductive CVError
  | service
  | unexpected
deriving DecidableEq

instance {ε α : Type} [DecidableEq ε] [DecidableEq α] : DecidableEq (Except ε α) := fun
  | .ok a, .ok b =>
    if h : a = b then .isTrue (congrArg Except.ok h)
    else .isFalse (fun he => h (Except.ok.inj he))
  | .error a, .error b =>
    if h : a = b then .isTrue (congrArg Except.error h)
    else .isFalse (fun he => h (Except.error.inj he))
  | .ok _, .error _ => .isFalse (fun he => Except.noConfusion he)
  | .error _, .ok _ => .isFalse (fun he => Except.noConfusion he)

/-- Outcome of one `get_volume` invocation.  `result` is `.error ()` when
the Python call raises to its caller (an `IntegrityError` escaping the
`except` handlers); `.ok none` is the unconfigured `return None`.  `store`
is the volume row for the requested id after the call (`none` = absent),
`pubs` the publisher table, `calls` the number of remote API calls made. -/
structure GetVolumeOut where
  result : Except Unit (Option VolRecord)
  store : Option VolRecord
  pubs : List (Nat × String)
  calls : Nat
deriving DecidableEq

/-- `ComicVineService.get_volume(volume_id, force_refresh)`.

`store` is the cached row for `volumeId` (if any), `adapter` the outcome the
remote call would have (`self.cv.get_volume`), `ttlHours` the configured
`COMICVINE_CACHE_EXPIRE_HOURS`.  Failed `save()`s inside the success branch
are caught by the generic `except Exception` handler and re-enter the
failure path, whose own failed `save()` escapes to the caller. -/
def getVolume (configured : Bool) (store : Option VolRecord)
    (pubs : List (Nat × String)) (now : Int) (ttlHours : Int) (volumeId : Nat)
    (forceRefresh : Bool) (adapter : Except CVError SVolume) : GetVolumeOut :=
  if !configured then
    -- `if not self.cv: return None`
    ⟨.ok none, store, pubs, 0⟩
  else
    match store with
    | some v =>
      if isFresh v now forceRefresh then
        -- return cached data, no remote call
        ⟨.ok (some v), store, pubs, 0⟩
      else if v.api_fetch_failed ∧ now - (v.api_last_failure.getD now) < 3600 then
        -- recent-failure backoff: skip the API call
        ⟨.ok (some v), store, pubs, 0⟩
      else
        getVolumeFetch store pubs now ttlHours volumeId adapter
    | none => getVolumeFetch store pubs now ttlHours volumeId adapter
where
  /-- The fetch part of `get_volume` (from `cv_volume = self.cv.get_volume`
  on): exactly one remote call, success path and the two identical
  exception handlers. -/
  getVolumeFetch (store : Option VolRecord) (pubs : List (Nat × String))
      (now : Int) (ttlHours : Int) (volumeId : Nat)
      (adapter : Except CVError SVolume) : GetVolumeOut :=
    match adapter with
    | .ok payload =>
      -- `if not volume: volume = ComicVineVolume(cv_id=volume_id)`
      let base := store.getD { cv_id := volumeId, name := "" }
      let pubId := (payload.publisher.map SPubRef.id).getD none
      let pubName := (payload.publisher.map SPubRef.name).getD none
      let pubs' :=
        match pubId with
        | some pid => pubGetOrCreate pubs pid pubName
        | none => pubs
      let v :=
        resetApiFailure
          { base with
              name := orStr payload.name ("Volume " ++ toString volumeId)
              start_year := payload.start_year
              count_of_issues := payload.issue_count.getD 0
              publisher := pubId
              cache_expires := some (now + ttlHours * 3600) }
      if saveVolumeOK v then ⟨.ok (some v), some v, pubs', 1⟩
      else
        -- `volume.save()` raised; the `except Exception` handler marks the
        -- failure on the same in-memory object and saves again
        let v' := markApiFailure v now
        if saveVolumeOK v' then ⟨.ok (some v'), some v', pubs', 1⟩
        else ⟨.error (), store, pubs', 1⟩
    | .error _ =>
      -- `except ServiceError` / `except Exception`: identical bodies
      let base := store.getD { cv_id := volumeId, name := "Volume " ++ toString volumeId }
      let v := markApiFailure base now
      if saveVolumeOK v then ⟨.ok (some v), some v, pubs, 1⟩
      else ⟨.error (), store, pubs, 1⟩

/-! ### Week priming state and the week-level orchestrator
(`ComicVineWeek` in models.py, `WeeksViewSet.retrieve` in pulls/views.py). -/

/-- A `comicvine_weeks` row.  `cache_expires` is `none` only before the
first assignment (the column is NOT NULL once saved). -/
structure WeekState where
  week_start : Nat
  cache_expires : Option Int := none
  api_fetch_failed : Bool := false
  api_fetch_failure_count : Nat := 0
  api_last_failure : Option Int := none
  priming_complete : Bool := false
  next_date_to_prime : Option Nat := none
  current_day_page : Nat := 0
deriving DecidableEq

/-- `is_cache_expired` on a week row (same `now > cache_expires` test). -/
def weekIsCacheExpired (w : WeekState) (now : Int) : Bool :=
  match w.cache_expires with
  | some ce => decide (ce < now)
  | none => true

/-- Summary dict returned by `prime_issues_for_date_range`.  When the source
dict omits the resume keys (the unconfigured early return), the caller's
`summary.get("next_date")` / `summary.get("next_page", 1)` defaults are
`none` / `1`, which is how such a summary is represented here. -/
structure PrimeSummary where
  created : Nat
  updated : Nat
  fetched : Nat
  complete : Bool
  nextPage : Nat
  nextDate : Option Nat
deriving DecidableEq

/-- `WeeksViewSet.retrieve`: `should_prime = not week_cache or
week_cache.is_cache_expired() or week_cache.api_fetch_failed or not
getattr(week_cache, "priming_complete", False)`. -/
def shouldPrime (weekCache : Option WeekState) (now : Int) : Bool :=
  match weekCache with
  | none => true
  | some w => weekIsCacheExpired w now || w.api_fetch_failed || !w.priming_complete

/-- The week-state update `WeeksViewSet.retrieve` performs after a priming
call returns (`summary`) without raising: set `priming_complete`, reset the
failure fields, persist or clear the resume markers, and set a 7-day or
60-second TTL depending on completeness. -/
def applyPrimeSuccess (weekCache : Option WeekState) (weekKey : Nat)
    (summary : PrimeSummary) (now : Int) : WeekState :=
  let w := weekCache.getD { week_start := weekKey }
  let complete := summary.complete
  { w with
      priming_complete := complete
      api_fetch_failed := false
      api_fetch_failure_count := 0
      api_last_failure := none
      next_date_to_prime := if complete then none else summary.nextDate
      current_day_page := if complete then 0 else summary.nextPage
      cache_expires := some (now + (if complete then 7 * 86400 else 60)) }

/-! ### `ComicVineService.get_volume_issues` (bulk issue ingestion) -/

/-- One entry of the list `get_volume_issues` returns
(`{"id":…, "number":…, "name":…, "date_added":…}`). -/
structure RetIssue where
  id : Nat
  number : Option String
  name : Option String
  date_added : Option Int
deriving DecidableEq

/-- The continuation condition of `get_volume_issues`'s paging loop, on the
accumulated issue list: `len(issues) == 0 or (volume.count_of_issues > 0
and len(issues) < volume.count_of_issues)`. -/
def gviContinue (countOfIssues : Nat) (issues : List SIssue) : Prop :=
  issues.length = 0 ∨ (0 < countOfIssues ∧ issues.length < countOfIssues)

instance (c : Nat) (l : List SIssue) : Decidable (gviContinue c l) := by
  unfold gviContinue; infer_instance

/-- The paging loop of `get_volume_issues` (services.py lines 194-211):

`while (len(issues) == 0 or (volume.count_of_issues > 0 and len(issues) <
volume.count_of_issues)) and page < 3: page += 1; …; issues.extend(…)`.

`fetch p` is the page of `self.cv.list_issues` with
`offset = (p - 1) * 500`, `filter = "volume:{volume_id}"`,
`sort = "store_date:asc"`.  Returns the accumulated issues and the list of
page numbers fetched, in order. -/
def gviLoop (fetch : Nat → List SIssue) (countOfIssues : Nat) (page : Nat)
    (issues : List SIssue) : List SIssue × List Nat :=
  if gviContinue countOfIssues issues ∧ page < 3 then
    let page' := page + 1
    let pageIssues := fetch page'
    let r := gviLoop fetch countOfIssues page' (issues ++ pageIssues)
    (r.1, page' :: r.2)
  else
    (issues, [])
termination_by 3 - page
decreasing_by omega

/-- The dict appended to `issue_list` for one fetched issue. -/
def retOf (s : SIssue) : RetIssue :=
  { id := s.id, number := s.number, name := s.name, date_added := s.date_added }

/-- The `for s_issue in issues:` body of `get_volume_issues`:
`update_or_create(cv_id=s_issue.id, defaults=…)` on the issue table, then
append the inline values to the return list. -/
def gviIngest (volumeId : Nat) (now : Int) (acc : List RetIssue)
    (store : List (Nat × IssueDefaults)) :
    List SIssue → List RetIssue × List (Nat × IssueDefaults)
  | [] => (acc, store)
  | s :: rest =>
    gviIngest volumeId now (acc ++ [retOf s])
      (upsert store s.id (buildIssueDefaults s volumeId now)) rest

/-- Just the issue-table effect of that loop. -/
def ingestStore (volumeId : Nat) (now : Int)
    (store : List (Nat × IssueDefaults)) :
    List SIssue → List (Nat × IssueDefaults)
  | [] => store
  | s :: rest =>
    ingestStore volumeId now (upsert store s.id (buildIssueDefaults s volumeId now)) rest

/-- `ComicVineService.get_volume_issues(volume_id)`: look up the cached
volume (return `[]` if missing or unconfigured), run the paging loop from
`page = 0` with no issues accumulated, then upsert every fetched issue into
the issue table keyed by its ComicVine id and build the return list. -/
def getVolumeIssues (configured : Bool) (fetch : Nat → List SIssue)
    (vols : List (Nat × VolRecord)) (issueStore : List (Nat × IssueDefaults))
    (now : Int) (volumeId : Nat) : List RetIssue × List (Nat × IssueDefaults) :=
  if !configured then ([], issueStore)
  else
    match lookupRow vols volumeId with
    | none => ([], issueStore)
    | some volume =>
      let issues := (gviLoop fetch volume.count_of_issues 0 []).1
      gviIngest volumeId now [] issueStore issues

/-- Value rewritten at key `k` — the effect of `upsert` on a store already
containing `k` (proof vocabulary for the idempotence argument). -/
def overwriteAt {D : Type} (k : Nat) (d : D) : (Nat × D) → (Nat × D) :=
  fun p => if p.1 = k then (k, d) else p

/-- Modelled from the spec: the paging policy claim C7 ascribes to
`get_volume_issues` — "accumulating pages until either a page returns fewer
than the full page size (no more data) or a fixed safety cap of pages is
reached", with the source's page size (500) and cap (3 pages).  `remaining`
counts pages still allowed by the cap; the recursion starts at
`specPages fetch = specPagesFrom fetch 1 3`. -/
def specPagesFrom (fetch : Nat → List SIssue) (page : Nat) : Nat → List Nat
  | 0 => []
  | remaining + 1 =>
    let pageIssues := fetch page
    if pageIssues.length < 500 then [page]
    else page :: specPagesFrom fetch (page + 1) remaining

/-- Modelled from the spec: pages fetched under the short-page-or-cap
policy, starting at page 1 with a cap of 3 pages. -/
def specPages (fetch : Nat → List SIssue) : List Nat :=
  specPagesFrom fetch 1 3

/-- Pages actually fetched by `get_volume_issues`'s loop for a volume with
issue count `countOfIssues`. -/
def gviPages (fetch : Nat → List SIssue) (countOfIssues : Nat) : List Nat :=
  (gviLoop fetch countOfIssues 0 []).2

/-! ### `ComicVineService.prime_issues_for_date_range` -/

/-- The three tables the priming pass writes: issues, volumes,
publishers. -/
structure Stores where
  issues : List (Nat × IssueDefaults)
  vols : List (Nat × VolRecord)
  pubs : List (Nat × String)
deriving DecidableEq

/-- The publisher payload `prime_issues_for_date_range` builds from an
issue's volume reference: `{"id": pub_id, "name": pub_name}` when the
nested publisher has an id, else `None`. -/
def pubPayloadOf (vol : Option SVolRef) : Option (Nat × Option String) :=
  match vol with
  | none => none
  | some v =>
    match v.publisher with
    | none => none
    | some p =>
      match p.id with
      | some pid => some (pid, p.name)
      | none => none

/-- `ComicVineService._ensure_volume(vol_id, vol_name, publisher)`.

On the create path with no publisher payload the new row has `publisher =
None`; its `save()` violates the NOT NULL constraint (migration 0011) and
raises, which is the `.error` case.  All other paths persist and return the
updated tables. -/
def ensureVolume (vols : List (Nat × VolRecord)) (pubs : List (Nat × String))
    (volId : Nat) (volName : Option String) (pub : Option (Nat × Option String))
    (now : Int) : Except Unit (List (Nat × VolRecord) × List (Nat × String)) :=
  match lookupRow vols volId with
  | some volume =>
    -- backfill the publisher FK if available and missing
    match pub, volume.publisher with
    | some (pid, pname), none =>
      let pubs' := pubGetOrCreate pubs pid pname
      .ok (upsert vols volId { volume with publisher := some pid }, pubs')
    | _, _ => .ok (vols, pubs)
  | none =>
    match pub with
    | some (pid, pname) =>
      let pubs' := pubGetOrCreate pubs pid pname
      let volume : VolRecord :=
        { cv_id := volId
          name := orStr volName ("Volume " ++ toString volId)
          start_year := none
          count_of_issues := 0
          publisher := some pid
          cache_expires := some (now + 2592000)
          api_fetch_failed := false
          api_fetch_failure_count := 0
          api_last_failure := none }
      .ok (upsert vols volId volume, pubs')
    | none =>
      -- `ComicVineVolume(..., publisher=None, ...).save()` raises
      -- IntegrityError (publisher_id NOT NULL)
      .error ()

/-- Process one issue of a fetched page inside the priming loop: skip it if
its volume reference has no id, otherwise `_ensure_volume` then upsert the
issue row.  The `Bool` is `true` when the processing raised (the
`_ensure_volume` save failure), which aborts the day. -/
def primeIngestOne (now : Int) (st : Stores) (s : SIssue) : Stores × Bool :=
  match (s.volume.map SVolRef.id).getD none with
  | none => (st, false)
  | some volId =>
    match ensureVolume st.vols st.pubs volId
        ((s.volume.map SVolRef.name).getD none) (pubPayloadOf s.volume) now with
    | .error _ => (st, true)
    | .ok (vols', pubs') =>
      ({ issues := upsert st.issues s.id (buildIssueDefaults s volId now)
         vols := vols'
         pubs := pubs' }, false)

/-- `for s_issue in issues: …` with the surrounding `try`: stop at the first
issue whose processing raises. -/
def primeIngest (now : Int) (st : Stores) : List SIssue → Stores × Bool
  | [] => (st, false)
  | s :: rest =>
    let (st', err) := primeIngestOne now st s
    if err then (st', true) else primeIngest now st' rest

/-- Result of the per-day page loop.  `calls` is the global remote-call
trace extended with this day's `(date, page)` calls; `resume` is the
`(resume_next_date, resume_next_page)` pair recorded when the budget check
fired; `err` is `true` when the day was abandoned by an exception. -/
structure DayOut where
  calls : List (Nat × Nat)
  stores : Stores
  dayFetched : Nat
  lastPageUsed : Nat
  resume : Option (Nat × Nat)
  err : Bool
deriving DecidableEq

/-- The inner `while page <= 3` loop of `prime_issues_for_date_range` for
day `day`.  `elapsed n` is the wall-clock seconds elapsed once `n` remote
calls have been made (`time.time() - budget_start`), so the budget test
before each call is `budget < elapsed calls.length`.  `fetch d p` is the
page returned by `self.cv.list_issues` with
`offset = (p - 1) * 500`, `filter = "store_date:{d}"`,
`sort = "store_date:asc"` (the adapter is modelled as total; an adapter
exception would abandon the day exactly as the ingest `err` path does). -/
def primeDay (fetch : Nat → Nat → List SIssue) (elapsed : Nat → Nat)
    (budget : Nat) (now : Int) (day : Nat) (page : Nat)
    (calls : List (Nat × Nat)) (st : Stores) (dayFetched lastPageUsed : Nat) :
    DayOut :=
  if 3 < page then ⟨calls, st, dayFetched, lastPageUsed, none, false⟩
  else if budget < elapsed calls.length then
    -- budget exhausted: resume on the same day/page we were about to fetch
    ⟨calls, st, dayFetched, lastPageUsed, some (day, page), false⟩
  else
    let issues := fetch day page
    let calls' := calls ++ [(day, page)]
    if issues.isEmpty then ⟨calls', st, dayFetched, lastPageUsed, none, false⟩
    else
      let dayFetched' := dayFetched + issues.length
      let pr := primeIngest now st issues
      if pr.2 then ⟨calls', pr.1, dayFetched', lastPageUsed, none, true⟩
      else if issues.length < 500 then
        ⟨calls', pr.1, dayFetched', page, none, false⟩
      else
        primeDay fetch elapsed budget now day (page + 1) calls' pr.1 dayFetched' page
termination_by 4 - page
decreasing_by omega

/-- Result of a whole priming pass: the remote-call trace, the final
tables, and the returned summary dict. -/
structure RunOut where
  calls : List (Nat × Nat)
  stores : Stores
  summary : PrimeSummary
deriving DecidableEq

/-- The outer `while cur <= end_date` loop of
`prime_issues_for_date_range`.  One iteration runs the day loop (page
starting at `max 1 start_page` on the first day, 1 afterwards), adds the
day's fetch count unless the day raised, advances `cur`, and re-checks the
budget: if exceeded it suspends, keeping an inner resume point when one was
recorded and otherwise resuming at the next day, page 1. -/
def primeLoop (fetch : Nat → Nat → List SIssue) (elapsed : Nat → Nat)
    (budget : Nat) (now : Int) (endDate : Nat) (cur : Nat) (startPage : Nat)
    (firstDay : Bool) (calls : List (Nat × Nat)) (st : Stores)
    (totalFetched lastPageUsed : Nat) : RunOut :=
  if endDate < cur then
    ⟨calls, st,
      { created := 0, updated := 0, fetched := totalFetched,
        complete := true, nextPage := 1, nextDate := none }⟩
  else
    let page0 := if firstDay then max 1 startPage else 1
    let d := primeDay fetch elapsed budget now cur page0 calls st 0 lastPageUsed
    let totalFetched' := totalFetched + (if d.err then 0 else d.dayFetched)
    let cur' := cur + 1
    if budget < elapsed d.calls.length then
      -- stop if over budget; resume on the next day at page 1 unless the
      -- day loop already recorded an exact resume point
      let r := d.resume.getD (cur', 1)
      ⟨d.calls, d.stores,
        { created := 0, updated := 0, fetched := totalFetched',
          complete := false,
          nextPage := if r.2 = 0 then d.lastPageUsed + 1 else r.2,
          nextDate := some r.1 }⟩
    else
      primeLoop fetch elapsed budget now endDate cur' 1 false d.calls d.stores
        totalFetched' d.lastPageUsed
termination_by endDate + 1 - cur
decreasing_by omega

/-- `ComicVineService.prime_issues_for_date_range(start_date, end_date,
start_page=…, resume_date=…)`.  Unconfigured (`not self.cv`): return the
skip summary without touching anything (the source dict carries no resume
keys; the caller's `.get` defaults make that `nextPage = 1`,
`nextDate = none`).  Otherwise run the outer loop from
`cur = resume_date or start_date` with `last_page_used = max(1,
start_page)`. -/
def primeRun (configured : Bool) (fetch : Nat → Nat → List SIssue)
    (elapsed : Nat → Nat) (budget : Nat) (now : Int)
    (startDate endDate : Nat) (startPage : Nat) (resumeDate : Option Nat)
    (st : Stores) : RunOut :=
  if !configured then
    ⟨[], st,
      { created := 0, updated := 0, fetched := 0,
        complete := true, nextPage := 1, nextDate := none }⟩
  else
    primeLoop fetch elapsed budget now endDate (resumeDate.getD startDate)
      startPage true [] st 0 (max 1 startPage)

/-- The clock of a run whose budget is never exhausted (used to model the
canonical uninterrupted pass and a resumed pass given enough budget). -/
def zeroClock : Nat → Nat := fun _ => 0

/-! ### Vocabulary for the resume-correctness claim -/

/-- The canonical uninterrupted day run: the page loop for `day` starting
at `page`, under a clock that never exceeds the budget, with an empty call
trace.  (The calls such a run makes are exactly the pages of `day` the
source would fetch from `page` on, absent budget pressure.) -/
def zeroDay (fetch : Nat → Nat → List SIssue) (budget : Nat) (now : Int)
    (day page : Nat) (st : Stores) : DayOut :=
  primeDay fetch zeroClock budget now day page [] st 0 1

/-- The canonical uninterrupted pass from day `cur` (first day starting at
page `page0`, later days at page 1) through `endDate`, under a clock that
never exceeds the budget. -/
def zeroFrom (fetch : Nat → Nat → List SIssue) (budget : Nat) (now : Int)
    (endDate cur page0 : Nat) (st : Stores) : RunOut :=
  primeLoop fetch zeroClock budget now endDate cur page0 true [] st 0 1

/-- Processing order on `(date, page)` remote calls: strictly earlier date,
or same date and strictly earlier page. -/
def callLt (a c : Nat × Nat) : Prop :=
  a.1 < c.1 ∨ (a.1 = c.1 ∧ a.2 < c.2)

instance (a c : Nat × Nat) : Decidable (callLt a c) := by
  unfold callLt; infer_instance

/-! ### Vocabulary for the image-preference and paging claims -/

/-- The image URL variants in the preference order of
`_build_issue_defaults`'s `image_medium_url` chain:
medium, super, screen, small, original, thumbnail, tiny, icon. -/
def imageVariants (img : Option CVImage) : List (Option String) :=
  [getImg img CVImage.medium_url, getImg img CVImage.super_url,
   getImg img CVImage.screen_url, getImg img CVImage.small_url,
   getImg img CVImage.original_url, getImg img CVImage.thumbnail,
   getImg img CVImage.tiny_url, getImg img CVImage.icon_url]

/-- First non-null element of a preference list (the rule claim C9 states). -/
def firstNonNull (l : List (Option String)) : Option String :=
  l.findSome? id

/-- First truthy (non-null, non-empty) element of a preference list — the
rule the Python `or`-chain actually implements for every element but the
last. -/
def firstTruthy : List (Option String) → Option String
  | [] => none
  | a :: rest =>
    match a with
    | some s => if s = "" then firstTruthy rest else some s
    | none => firstTruthy rest

/-- Right-nested Python `or` over a preference list: first truthy element,
else the raw value of the last element. -/
def pyOrChain : List (Option String) → Option String
  | [] => none
  | [a] => a
  | a :: rest => pyOr a (pyOrChain rest)

/-! ## Theorems -/

theorem pyOrChain_eq_firstTruthy (l : List (Option String)) :
    pyOrChain l =
      match firstTruthy l with
      | some u => some u
      | none => l.getLastD none := by
  induction l with
  | nil => rfl
  | cons a rest ih =>
    cases rest with
    | nil =>
      cases a with
      | none => rfl
      | some s =>
        by_cases hs : s = "" <;> simp [pyOrChain, firstTruthy, hs]
    | cons b rest' =>
      cases a with
      | none => simpa [pyOrChain, firstTruthy, pyOr] using ih
      | some s =>
        by_cases hs : s = ""
        · simp [pyOrChain, firstTruthy, pyOr, hs]
          simpa using ih
        · simp [pyOrChain, firstTruthy, pyOr, hs]

theorem image_medium_eq_pyOrChain (s : SIssue) (volumeId : Nat) (now : Int) :
    (buildIssueDefaults s volumeId now).image_medium_url
      = pyOrChain (imageVariants s.image) := rfl

/-- C8: the canonical date stored on an ingested issue is `store_date` when
present, and `cover_date` otherwise; it is null exactly when both are
absent.  The `date` field of `_build_issue_defaults` is the single date
column (`ComicVineIssue.date`) used for date-range queries. -/
theorem canonical_date_rule (s : SIssue) (volumeId : Nat) (now : Int) :
    (buildIssueDefaults s volumeId now).date
        = (match s.store_date with
           | some d => some d
           | none => s.cover_date) ∧
    ((buildIssueDefaults s volumeId now).date = none ↔
        s.store_date = none ∧ s.cover_date = none) := by
  constructor
  · cases hs : s.store_date <;> simp [buildIssueDefaults, orOpt, hs]
  · cases hs : s.store_date <;> simp [buildIssueDefaults, orOpt, hs]

/-- C9 counterexample: the claim's "first non-null URL" rule fails on the
code, because the Python `or` chain skips empty strings.  For an image
whose `medium_url` is the empty string and whose `super_url` is populated,
the code derives `super_url`, not the first non-null variant `""`. -/
theorem image_pref_counterexample :
    ¬ (∀ (s : SIssue) (volumeId : Nat) (now : Int),
        (buildIssueDefaults s volumeId now).image_medium_url
          = firstNonNull (imageVariants s.image)) := by
  intro h
  have hx := h
    { image := some { medium_url := some "", super_url := some "http://super" } } 1 0
  simp [buildIssueDefaults, imageVariants, firstNonNull, getImg, pyOr,
    List.findSome?] at hx

/-- C9 amended: the derived best medium image equals the first truthy
(non-null, non-empty) URL in the order medium → super → screen → small →
original → thumbnail → tiny → icon, falling back to the raw `icon_url`
value when no variant is truthy; hence it is null exactly when no variant
is truthy and `icon_url` is null.  The claim's concrete example (only
`super_url` and `icon_url` populated) yields `super_url`. -/
theorem image_pref_order (s : SIssue) (volumeId : Nat) (now : Int) :
    ((buildIssueDefaults s volumeId now).image_medium_url
        = (match firstTruthy (imageVariants s.image) with
           | some u => some u
           | none => getImg s.image CVImage.icon_url)) ∧
    ((buildIssueDefaults s volumeId now).image_medium_url = none ↔
        (firstTruthy (imageVariants s.image) = none ∧
          getImg s.image CVImage.icon_url = none)) ∧
    (buildIssueDefaults
        { image := some { super_url := some "http://super",
                          icon_url := some "http://icon" } }
        volumeId now).image_medium_url = some "http://super" := by
  have hlast : (imageVariants s.image).getLastD none
      = getImg s.image CVImage.icon_url := rfl
  have hmain : (buildIssueDefaults s volumeId now).image_medium_url
      = (match firstTruthy (imageVariants s.image) with
         | some u => some u
         | none => getImg s.image CVImage.icon_url) := by
    rw [image_medium_eq_pyOrChain, pyOrChain_eq_firstTruthy, hlast]
  refine ⟨hmain, ?_, rfl⟩
  rw [hmain]
  cases h : firstTruthy (imageVariants s.image) <;> simp [h]

/-- C3: the week orchestrator primes exactly when there is no cached week
row, or it is expired, or its last fetch failed, or priming is not
complete; after a successful priming call it copies the summary's
`complete` flag into `priming_complete` and, when complete, sets a 7-day
TTL and clears the resume markers, while, when incomplete, sets a
60-second TTL and persists the summary's `next_date` / `next_page` as the
resume markers. -/
theorem week_orchestrator_rules (w : WeekState) (weekCache : Option WeekState)
    (now : Int) (weekKey : Nat) (summary : PrimeSummary) :
    shouldPrime none now = true ∧
    shouldPrime (some w) now
      = (weekIsCacheExpired w now || w.api_fetch_failed || !w.priming_complete) ∧
    (applyPrimeSuccess weekCache weekKey summary now).priming_complete
      = summary.complete ∧
    (applyPrimeSuccess weekCache weekKey summary now).cache_expires
      = some (now + (if summary.complete then 7 * 86400 else 60)) ∧
    (applyPrimeSuccess weekCache weekKey summary now).next_date_to_prime
      = (if summary.complete then none else summary.nextDate) ∧
    (applyPrimeSuccess weekCache weekKey summary now).current_day_page
      = (if summary.complete then 0 else summary.nextPage) := by
  refine ⟨rfl, rfl, rfl, rfl, rfl, rfl⟩

/-- C10: with no API key configured, `prime_issues_for_date_range` returns
the summary `{created: 0, updated: 0, fetched: 0, complete: true}` (whose
missing resume keys read as `next_page = 1`, `next_date = none` through the
caller's `.get` defaults) without any remote call or store write, and the
week orchestrator consequently records the week as complete with the 7-day
TTL and cleared resume markers even though nothing was fetched. -/
theorem unconfigured_prime_skips_and_completes
    (fetch : Nat → Nat → List SIssue) (elapsed : Nat → Nat) (budget : Nat)
    (now : Int) (startDate endDate startPage : Nat) (resumeDate : Option Nat)
    (st : Stores) (weekCache : Option WeekState) (weekKey : Nat) (now' : Int) :
    primeRun false fetch elapsed budget now startDate endDate startPage
        resumeDate st
      = ⟨[], st, { created := 0, updated := 0, fetched := 0,
                   complete := true, nextPage := 1, nextDate := none }⟩ ∧
    (applyPrimeSuccess weekCache weekKey
        { created := 0, updated := 0, fetched := 0,
          complete := true, nextPage := 1, nextDate := none } now').priming_complete
      = true ∧
    (applyPrimeSuccess weekCache weekKey
        { created := 0, updated := 0, fetched := 0,
          complete := true, nextPage := 1, nextDate := none } now').cache_expires
      = some (now' + 7 * 86400) ∧
    (applyPrimeSuccess weekCache weekKey
        { created := 0, updated := 0, fetched := 0,
          complete := true, nextPage := 1, nextDate := none } now').next_date_to_prime
      = none ∧
    (applyPrimeSuccess weekCache weekKey
        { created := 0, updated := 0, fetched := 0,
          complete := true, nextPage := 1, nextDate := none } now').current_day_page
      = 0 := by
  refine ⟨rfl, rfl, rfl, rfl, rfl⟩

/-- C2 (code bug): when the fetch fails for a volume with no cached record,
`get_volume` builds the placeholder `ComicVineVolume(cv_id=…, name="Volume
{id}")`, marks the failure and saves — but the placeholder has neither a
`publisher` nor a `cache_expires` value, both NOT NULL columns, so the
`save()` inside the `except` handler raises an `IntegrityError` that
escapes to the caller instead of persisting and returning the failed
record.  Evaluated here at volume id 7, `now = 0`, for both error kinds:
the call raises (`.error`), makes exactly one remote call, and writes
nothing. -/
theorem get_volume_uncached_failure_raises :
    getVolume true none [] 0 144 7 false (.error .service)
      = ⟨.error (), none, [], 1⟩ ∧
    getVolume true none [] 0 144 7 false (.error .unexpected)
      = ⟨.error (), none, [], 1⟩ := ⟨rfl, rfl⟩

/-- C4: a cached volume in failure state with a recorded `last_failure`
less than one hour before `now` short-circuits `get_volume` entirely: zero
remote calls, no store write, and the failed record is returned unchanged
(whatever `force_refresh` and whatever the adapter would have done). -/
theorem backoff_respected (v : VolRecord) (pubs : List (Nat × String))
    (now : Int) (ttlHours : Int) (volumeId : Nat) (forceRefresh : Bool)
    (adapter : Except CVError SVolume) (t : Int)
    (hf : v.api_fetch_failed = true) (hl : v.api_last_failure = some t)
    (hd : now - t < 3600) :
    getVolume true (some v) pubs now ttlHours volumeId forceRefresh adapter
      = ⟨.ok (some v), some v, pubs, 0⟩ := by
  have hfresh : isFresh v now forceRefresh = false := by
    simp [isFresh, hf]
  simp [getVolume, hfresh, hf, hl, hd]

theorem backoff_respected_witness :
    ({ cv_id := 1, name := "Volume 1", api_fetch_failed := true,
       api_last_failure := some 100, cache_expires := some 50 } : VolRecord).api_fetch_failed
        = true ∧
    ({ cv_id := 1, name := "Volume 1", api_fetch_failed := true,
       api_last_failure := some 100, cache_expires := some 50 } : VolRecord).api_last_failure
        = some 100 ∧
    (200 : Int) - 100 < 3600 ∧
    getVolume true
        (some { cv_id := 1, name := "Volume 1", api_fetch_failed := true,
                api_last_failure := some 100, cache_expires := some 50 })
        [] 200 144 1 true (.error .service)
      = ⟨.ok (some { cv_id := 1, name := "Volume 1", api_fetch_failed := true,
                     api_last_failure := some 100, cache_expires := some 50 }),
         some { cv_id := 1, name := "Volume 1", api_fetch_failed := true,
                api_last_failure := some 100, cache_expires := some 50 },
         [], 0⟩ :=
  ⟨rfl, rfl, by decide,
    backoff_respected _ _ 200 144 1 true (.error .service) 100 rfl rfl (by decide)⟩

/-- C5 counterexample: the claim's freshness rule (`FRESH` iff `now <
cache_expires` and not failed, with the boundary `now = cache_expires` not
fresh) is false on the code: `is_cache_expired` is `now > cache_expires`,
so at the boundary instant the record is still served as fresh. -/
theorem freshness_claim_counterexample :
    ¬ (∀ (v : VolRecord) (ce now : Int), v.cache_expires = some ce →
        (isFresh v now false = true ↔ (now < ce ∧ v.api_fetch_failed = false))) := by
  intro h
  exact absurd
    ((h { cv_id := 1, name := "V", cache_expires := some 100 } 100 100 rfl).mp
      (by decide)).1
    (by decide)

/-- C5 amended: with `force_refresh = false` a cached record is fresh —
served unchanged with zero remote calls — exactly when `now ≤ cache_expires`
and `fetch_failed` is false; in particular at the boundary instant
`now = cache_expires` the record is still fresh and no fetch is
attempted. -/
theorem freshness_rule (v : VolRecord) (ce now : Int)
    (hce : v.cache_expires = some ce) :
    (isFresh v now false = true ↔ (now ≤ ce ∧ v.api_fetch_failed = false)) ∧
    (∀ (pubs : List (Nat × String)) (ttlHours : Int) (volumeId : Nat)
        (adapter : Except CVError SVolume), isFresh v now false = true →
      getVolume true (some v) pubs now ttlHours volumeId false adapter
        = ⟨.ok (some v), some v, pubs, 0⟩) := by
  constructor
  · simp [isFresh, isCacheExpired, hce]
  · intro pubs ttlHours volumeId adapter hfresh
    simp [getVolume, hfresh]

theorem freshness_rule_witness :
    ({ cv_id := 1, name := "V", cache_expires := some 100 } : VolRecord).cache_expires
        = some 100 ∧
    ((isFresh { cv_id := 1, name := "V", cache_expires := some 100 } 100 false = true ↔
        ((100 : Int) ≤ 100 ∧
          ({ cv_id := 1, name := "V", cache_expires := some 100 } : VolRecord).api_fetch_failed
            = false)) ∧
      (∀ (pubs : List (Nat × String)) (ttlHours : Int) (volumeId : Nat)
          (adapter : Except CVError SVolume),
        isFresh { cv_id := 1, name := "V", cache_expires := some 100 } 100 false = true →
        getVolume true (some { cv_id := 1, name := "V", cache_expires := some 100 })
            pubs 100 ttlHours volumeId false adapter
          = ⟨.ok (some { cv_id := 1, name := "V", cache_expires := some 100 }),
             some { cv_id := 1, name := "V", cache_expires := some 100 }, pubs, 0⟩)) :=
  ⟨rfl, freshness_rule _ 100 100 rfl⟩

/-- C7 counterexample: the claim's stopping rule ("stop exactly when a page
returns fewer than the full page size or the page cap is reached") is not
what `get_volume_issues` implements.  Its loop pages while `len(issues) ==
0 or (count_of_issues > 0 and len(issues) < count_of_issues)`: for a
volume whose cached `count_of_issues` is 2 and an upstream returning one
issue per page, page 1 comes back far short of the 500-record page size —
the claimed rule stops after page 1 — yet the code fetches page 2 because
only one of the two expected issues has accumulated. -/
theorem paging_claim_counterexample :
    ¬ (∀ (fetch : Nat → List SIssue) (countOfIssues : Nat),
        gviPages fetch countOfIssues = specPages fetch) := by
  intro h
  have hx := h (fun _ => [{}]) 2
  simp [gviPages, specPages, gviLoop, gviContinue, specPagesFrom] at hx

/-- The per-page helper used to state what `get_volume_issues` accumulates:
the concatenation of pages 1..n. -/
theorem gviLoop_characterization (fetch : Nat → List SIssue) (count : Nat) :
    ∀ fuel p, 3 - p ≤ fuel → p ≤ 3 →
      ∃ m, p + m ≤ 3 ∧
        (gviLoop fetch count p (((List.range' 1 p).map fetch).flatten)).2
          = List.range' (p + 1) m ∧
        (gviLoop fetch count p (((List.range' 1 p).map fetch).flatten)).1
          = ((List.range' 1 (p + m)).map fetch).flatten ∧
        (∀ k, p ≤ k → k < p + m →
          gviContinue count (((List.range' 1 k).map fetch).flatten)) ∧
        (p + m < 3 →
          ¬ gviContinue count (((List.range' 1 (p + m)).map fetch).flatten)) := by
  intro fuel
  induction fuel with
  | zero =>
    intro p hfuel hp
    have hp3 : p = 3 := by omega
    subst hp3
    have hstop : ¬ (gviContinue count (((List.range' 1 3).map fetch).flatten) ∧ 3 < 3) := by
      intro hc
      omega
    refine ⟨0, by omega, ?_, ?_, ?_, ?_⟩
    · rw [gviLoop, if_neg hstop]
      rfl
    · rw [gviLoop, if_neg hstop]
    · intro k h1 h2; omega
    · intro h; omega
  | succ fuel ih =>
    intro p hfuel hp
    by_cases hcont : gviContinue count (((List.range' 1 p).map fetch).flatten) ∧ p < 3
    · have h1p : 1 + 1 * p = p + 1 := by omega
      have hacc : ((List.range' 1 p).map fetch).flatten ++ fetch (p + 1)
          = ((List.range' 1 (p + 1)).map fetch).flatten := by
        rw [List.range'_concat, h1p]
        simp
      obtain ⟨m', hm3, hpages, hacc', hall, hlast⟩ :=
        ih (p + 1) (by omega) (by omega)
      have hsum : p + (m' + 1) = (p + 1) + m' := by omega
      refine ⟨m' + 1, by omega, ?_, ?_, ?_, ?_⟩
      · rw [gviLoop, if_pos hcont]
        simp only [hacc, hpages]
        rfl
      · rw [gviLoop, if_pos hcont]
        simp only [hacc, hsum]
        exact hacc'
      · intro k h1 h2
        rcases Nat.eq_or_lt_of_le h1 with heq | hlt
        · rw [← heq]; exact hcont.1
        · exact hall k hlt (by omega)
      · intro h
        rw [hsum]
        exact hlast (by omega)
    · refine ⟨0, by omega, ?_, ?_, ?_, ?_⟩
      · rw [gviLoop, if_neg hcont]
        rfl
      · rw [gviLoop, if_neg hcont]
        rfl
      · intro k h1 h2
        omega
      · intro h hc
        exact hcont ⟨hc, h⟩

/-- C7 amended: `get_volume_issues` fetches consecutive pages 1..n of the
adapter (filtered by volume id, sorted ascending by store date) for some
`n ≤ 3`; the loop continues while the accumulated list is empty or, when
the cached `count_of_issues` is positive, shorter than `count_of_issues`,
and it stops exactly when that continuation condition fails or the 3-page
safety cap is reached — not when a page comes back short of the 500-record
page size. -/
theorem gvi_paging_rule (fetch : Nat → List SIssue) (count : Nat) :
    ∃ n, n ≤ 3 ∧
      gviPages fetch count = List.range' 1 n ∧
      (gviLoop fetch count 0 []).1 = ((List.range' 1 n).map fetch).flatten ∧
      (∀ k, k < n → gviContinue count (((List.range' 1 k).map fetch).flatten)) ∧
      (n < 3 → ¬ gviContinue count (((List.range' 1 n).map fetch).flatten)) := by
  obtain ⟨m, hm3, hpages, hacc, hall, hlast⟩ :=
    gviLoop_characterization fetch count 3 0 (by omega) (by omega)
  refine ⟨m, by omega, ?_, ?_, ?_, ?_⟩
  · simpa [gviPages] using hpages
  · simpa using hacc
  · intro k hk
    exact hall k (by omega) (by omega)
  · simpa using hlast

/-! ### Upsert algebra (for the ingestion-idempotence claim) -/

theorem mem_keysOf {D : Type} {s : List (Nat × D)} {k : Nat} :
    k ∈ keysOf s ↔ ∃ d, (k, d) ∈ s := by
  constructor
  · intro h
    rcases List.mem_map.mp h with ⟨p, hp, rfl⟩
    exact ⟨p.2, hp⟩
  · rintro ⟨d, hd⟩
    exact List.mem_map.mpr ⟨(k, d), hd, rfl⟩

theorem keysOf_map_overwriteAt {D : Type} (s : List (Nat × D)) (k : Nat) (d : D) :
    keysOf (s.map (overwriteAt k d)) = keysOf s := by
  simp only [keysOf, List.map_map]
  refine List.map_congr_left ?_
  intro p _
  by_cases hp : p.1 = k <;> simp [overwriteAt, hp]

theorem upsert_eq_map_of_mem {D : Type} {s : List (Nat × D)} {k : Nat} (d : D)
    (h : k ∈ keysOf s) : upsert s k d = s.map (overwriteAt k d) := by
  simp only [upsert, if_pos h]
  rfl

theorem keysOf_upsert_of_mem {D : Type} {s : List (Nat × D)} {k : Nat} (d : D)
    (h : k ∈ keysOf s) : keysOf (upsert s k d) = keysOf s := by
  rw [upsert_eq_map_of_mem d h, keysOf_map_overwriteAt]

theorem keysOf_upsert_of_not_mem {D : Type} {s : List (Nat × D)} {k : Nat} (d : D)
    (h : k ∉ keysOf s) : keysOf (upsert s k d) = keysOf s ++ [k] := by
  simp only [upsert, if_neg h]
  simp [keysOf]

theorem mem_keysOf_upsert {D : Type} {s : List (Nat × D)} {k k' : Nat} (d' : D)
    (h : k ∈ keysOf s) : k ∈ keysOf (upsert s k' d') := by
  by_cases hk' : k' ∈ keysOf s
  · rw [keysOf_upsert_of_mem d' hk']; exact h
  · rw [keysOf_upsert_of_not_mem d' hk']; exact List.mem_append_left _ h

theorem nodup_keysOf_upsert {D : Type} {s : List (Nat × D)} {k : Nat} (d : D)
    (h : (keysOf s).Nodup) : (keysOf (upsert s k d)).Nodup := by
  by_cases hk : k ∈ keysOf s
  · rw [keysOf_upsert_of_mem d hk]; exact h
  · rw [keysOf_upsert_of_not_mem d hk]
    simp [List.nodup_append, h, hk]

theorem pair_unique {D : Type} {s : List (Nat × D)} {k : Nat} {d₁ d₂ : D}
    (hnd : (keysOf s).Nodup) (h1 : (k, d₁) ∈ s) (h2 : (k, d₂) ∈ s) : d₁ = d₂ := by
  induction s with
  | nil => cases h1
  | cons p rest ih =>
    rw [keysOf] at hnd
    simp only [List.map_cons, List.nodup_cons] at hnd
    rcases List.mem_cons.mp h1 with he1 | hr1 <;>
      rcases List.mem_cons.mp h2 with he2 | hr2
    · have hpair : ((k, d₁) : Nat × D) = (k, d₂) := he1.trans he2.symm
      injection hpair
    · exfalso
      apply hnd.1
      rw [← he1]
      exact mem_keysOf.mpr ⟨d₂, hr2⟩
    · exfalso
      apply hnd.1
      rw [← he2]
      exact mem_keysOf.mpr ⟨d₁, hr1⟩
    · exact ih hnd.2 hr1 hr2

theorem upsert_pair_self_mem {D : Type} {s : List (Nat × D)} {k : Nat} {d : D} :
    (k, d) ∈ upsert s k d := by
  by_cases hk : k ∈ keysOf s
  · rw [upsert_eq_map_of_mem d hk]
    obtain ⟨d', hd'⟩ := mem_keysOf.mp hk
    exact List.mem_map.mpr ⟨(k, d'), hd', by simp [overwriteAt]⟩
  · simp [upsert, hk]

theorem pair_mem_upsert_of_ne {D : Type} {s : List (Nat × D)} {k k' : Nat} {d : D}
    (d' : D) (hm : (k, d) ∈ s) (hne : k' ≠ k) : (k, d) ∈ upsert s k' d' := by
  have hkk : k ≠ k' := fun h => hne h.symm
  by_cases hk' : k' ∈ keysOf s
  · rw [upsert_eq_map_of_mem d' hk']
    exact List.mem_map.mpr ⟨(k, d), hm, by simp [overwriteAt, hkk]⟩
  · simp only [upsert, if_neg hk']
    exact List.mem_append_left _ hm

theorem upsert_of_pair_mem {D : Type} {s : List (Nat × D)} {k : Nat} {d : D}
    (hnd : (keysOf s).Nodup) (hm : (k, d) ∈ s) : upsert s k d = s := by
  have hk : k ∈ keysOf s := mem_keysOf.mpr ⟨d, hm⟩
  rw [upsert_eq_map_of_mem d hk]
  conv_rhs => rw [← List.map_id s]
  refine List.map_congr_left ?_
  intro p hp
  by_cases hpk : p.1 = k
  · have hp2 : (k, p.2) ∈ s := by
      have : p = (k, p.2) := by
        rw [← hpk]

      rw [← this]; exact hp
    have : p.2 = d := pair_unique hnd hp2 hm
    simp [overwriteAt, hpk, this, Prod.ext_iff]
  · simp [overwriteAt, hpk]

theorem upsert_map_overwrite_comm {D : Type} {s : List (Nat × D)} {k k' : Nat}
    {d d' : D} (hne : k' ≠ k) :
    upsert (s.map (overwriteAt k d)) k' d'
      = (upsert s k' d').map (overwriteAt k d) := by
  have hkk : k ≠ k' := fun h => hne h.symm
  by_cases hk' : k' ∈ keysOf s
  · have hk'm : k' ∈ keysOf (s.map (overwriteAt k d)) := by
      rw [keysOf_map_overwriteAt]; exact hk'
    rw [upsert_eq_map_of_mem d' hk', upsert_eq_map_of_mem d' hk'm]
    simp only [List.map_map]
    refine List.map_congr_left ?_
    intro p _
    by_cases hp' : p.1 = k'
    · have hpk : p.1 ≠ k := by rw [hp']; exact hne
      simp [overwriteAt, hp', hpk, hkk, hne]
    · by_cases hp : p.1 = k
      · simp [overwriteAt, hp', hp, hkk, hne]
      · simp [overwriteAt, hp', hp]
  · have hk'm : k' ∉ keysOf (s.map (overwriteAt k d)) := by
      rw [keysOf_map_overwriteAt]; exact hk'
    simp only [upsert, if_neg hk', if_neg hk'm, List.map_append]
    simp [overwriteAt, hne]

theorem upsert_map_overwrite_same {D : Type} {s : List (Nat × D)} {k : Nat}
    {d dj : D} (hk : k ∈ keysOf s) :
    upsert (s.map (overwriteAt k d)) k dj = upsert s k dj := by
  have hkm : k ∈ keysOf (s.map (overwriteAt k d)) := by
    rw [keysOf_map_overwriteAt]; exact hk
  rw [upsert_eq_map_of_mem dj hk, upsert_eq_map_of_mem dj hkm]
  simp only [List.map_map]
  refine List.map_congr_left ?_
  intro p _
  by_cases hp : p.1 = k <;> simp [overwriteAt, hp]

/-! ### Ingestion idempotence (`get_volume_issues`, claim C6) -/

theorem mem_keysOf_ingestStore {k volumeId : Nat} {now : Int}
    {st : List (Nat × IssueDefaults)} (L : List SIssue) (h : k ∈ keysOf st) :
    k ∈ keysOf (ingestStore volumeId now st L) := by
  induction L generalizing st with
  | nil => exact h
  | cons s rest ih =>
    exact ih (mem_keysOf_upsert _ h)

theorem nodup_keysOf_ingestStore {volumeId : Nat} {now : Int}
    {st : List (Nat × IssueDefaults)} (L : List SIssue)
    (h : (keysOf st).Nodup) : (keysOf (ingestStore volumeId now st L)).Nodup := by
  induction L generalizing st with
  | nil => exact h
  | cons s rest ih =>
    exact ih (nodup_keysOf_upsert _ h)

theorem pair_mem_ingestStore {k volumeId : Nat} {now : Int} {d : IssueDefaults}
    {st : List (Nat × IssueDefaults)} (L : List SIssue) (hm : (k, d) ∈ st)
    (hall : ∀ s ∈ L, s.id ≠ k) : (k, d) ∈ ingestStore volumeId now st L := by
  induction L generalizing st with
  | nil => exact hm
  | cons s rest ih =>
    refine ih (pair_mem_upsert_of_ne _ hm (hall s (List.mem_cons_self s rest)))
      (fun j hj => hall j (List.mem_cons_of_mem s hj))

theorem ingestStore_map_overwrite {k volumeId : Nat} {now : Int}
    {d : IssueDefaults} (L : List SIssue) :
    ∀ st : List (Nat × IssueDefaults), k ∈ keysOf st → (∃ s ∈ L, s.id = k) →
      ingestStore volumeId now (st.map (overwriteAt k d)) L
        = ingestStore volumeId now st L := by
  induction L with
  | nil =>
    rintro st _ ⟨s, hs, _⟩
    cases hs
  | cons s rest ih =>
    intro st hk hex
    by_cases hsk : s.id = k
    · simp only [ingestStore]
      rw [hsk, upsert_map_overwrite_same hk]
    · simp only [ingestStore]
      rw [upsert_map_overwrite_comm hsk]
      refine ih _ (mem_keysOf_upsert _ hk) ?_
      rcases hex with ⟨j, hj, hjk⟩
      rcases List.mem_cons.mp hj with rfl | hjr
      · exact absurd hjk hsk
      · exact ⟨j, hjr, hjk⟩

theorem ingestStore_idem {volumeId : Nat} {now : Int} (L : List SIssue) :
    ∀ st : List (Nat × IssueDefaults), (keysOf st).Nodup →
      ingestStore volumeId now (ingestStore volumeId now st L) L
        = ingestStore volumeId now st L := by
  induction L with
  | nil =>
    intro st _
    rfl
  | cons s rest ih =>
    intro st hnd
    simp only [ingestStore]
    have hkU : s.id ∈ keysOf (upsert st s.id (buildIssueDefaults s volumeId now)) :=
      mem_keysOf.mpr ⟨_, upsert_pair_self_mem⟩
    have hndU : (keysOf (upsert st s.id (buildIssueDefaults s volumeId now))).Nodup :=
      nodup_keysOf_upsert _ hnd
    by_cases hex : ∃ j ∈ rest, j.id = s.id
    · have hkT : s.id ∈ keysOf (ingestStore volumeId now
          (upsert st s.id (buildIssueDefaults s volumeId now)) rest) :=
        mem_keysOf_ingestStore rest hkU
      rw [upsert_eq_map_of_mem _ hkT, ingestStore_map_overwrite rest _ hkT hex]
      exact ih _ hndU
    · push_neg at hex
      have hmT : (s.id, buildIssueDefaults s volumeId now) ∈ ingestStore volumeId now
          (upsert st s.id (buildIssueDefaults s volumeId now)) rest :=
        pair_mem_ingestStore rest upsert_pair_self_mem hex
      have hndT : (keysOf (ingestStore volumeId now
          (upsert st s.id (buildIssueDefaults s volumeId now)) rest)).Nodup :=
        nodup_keysOf_ingestStore rest hndU
      rw [upsert_of_pair_mem hndT hmT]
      exact ih _ hndU

theorem gviIngest_eq {volumeId : Nat} {now : Int} (L : List SIssue) :
    ∀ (acc : List RetIssue) (st : List (Nat × IssueDefaults)),
      gviIngest volumeId now acc st L
        = (acc ++ L.map retOf, ingestStore volumeId now st L) := by
  induction L with
  | nil =>
    intro acc st
    simp [gviIngest, ingestStore]
  | cons s rest ih =>
    intro acc st
    simp only [gviIngest, ingestStore, ih, List.map_cons, List.append_assoc,
      List.singleton_append]

/-- C6: with a fixed upstream, calling `get_volume_issues` twice in
succession leaves exactly the issue table the first call produced:
repeated ingestion is idempotent (every upstream issue is upserted keyed by
its ComicVine id), the second call returns the same list, and the natural
key stays duplicate-free. -/
theorem issue_ingestion_idempotent (configured : Bool)
    (fetch : Nat → List SIssue) (vols : List (Nat × VolRecord))
    (issueStore : List (Nat × IssueDefaults)) (now : Int) (volumeId : Nat)
    (hnd : (keysOf issueStore).Nodup) :
    (getVolumeIssues configured fetch vols
        (getVolumeIssues configured fetch vols issueStore now volumeId).2
        now volumeId).2
      = (getVolumeIssues configured fetch vols issueStore now volumeId).2 ∧
    (getVolumeIssues configured fetch vols
        (getVolumeIssues configured fetch vols issueStore now volumeId).2
        now volumeId).1
      = (getVolumeIssues configured fetch vols issueStore now volumeId).1 ∧
    (keysOf (getVolumeIssues configured fetch vols issueStore now volumeId).2).Nodup := by
  cases configured with
  | false =>
    simpa [getVolumeIssues] using hnd
  | true =>
    cases hv : lookupRow vols volumeId with
    | none =>
      refine ⟨?_, ?_, ?_⟩ <;> simp [getVolumeIssues, hv, hnd]
    | some volume =>
      simp only [getVolumeIssues, hv, Bool.not_true, Bool.false_eq_true, if_false,
        gviIngest_eq]
      refine ⟨?_, ?_, ?_⟩
      · exact ingestStore_idem _ _ hnd
      · trivial
      · exact nodup_keysOf_ingestStore _ hnd

theorem issue_ingestion_idempotent_witness :
    (keysOf ([] : List (Nat × IssueDefaults))).Nodup ∧
    ((getVolumeIssues true (fun _ => [{ id := 1 }])
        [(5, { cv_id := 5, name := "Vol", count_of_issues := 1 })]
        (getVolumeIssues true (fun _ => [{ id := 1 }])
          [(5, { cv_id := 5, name := "Vol", count_of_issues := 1 })] [] 0 5).2
        0 5).2
      = (getVolumeIssues true (fun _ => [{ id := 1 }])
          [(5, { cv_id := 5, name := "Vol", count_of_issues := 1 })] [] 0 5).2 ∧
    (getVolumeIssues true (fun _ => [{ id := 1 }])
        [(5, { cv_id := 5, name := "Vol", count_of_issues := 1 })]
        (getVolumeIssues true (fun _ => [{ id := 1 }])
          [(5, { cv_id := 5, name := "Vol", count_of_issues := 1 })] [] 0 5).2
        0 5).1
      = (getVolumeIssues true (fun _ => [{ id := 1 }])
          [(5, { cv_id := 5, name := "Vol", count_of_issues := 1 })] [] 0 5).1 ∧
    (keysOf (getVolumeIssues true (fun _ => [{ id := 1 }])
        [(5, { cv_id := 5, name := "Vol", count_of_issues := 1 })] [] 0 5).2).Nodup) :=
  ⟨List.nodup_nil,
    issue_ingestion_idempotent true (fun _ => [{ id := 1 }])
      [(5, { cv_id := 5, name := "Vol", count_of_issues := 1 })] [] 0 5
      List.nodup_nil⟩

/-! ### Day-loop step lemmas (one unfolding of `primeDay` per branch) -/

theorem primeDay_stop (fetch : Nat → Nat → List SIssue) (elapsed : Nat → Nat)
    (budget : Nat) (now : Int) (day page : Nat) (calls : List (Nat × Nat))
    (st : Stores) (df lpu : Nat) (h3 : 3 < page) :
    primeDay fetch elapsed budget now day page calls st df lpu
      = ⟨calls, st, df, lpu, none, false⟩ := by
  rw [primeDay, if_pos h3]

theorem primeDay_budget (fetch : Nat → Nat → List SIssue) (elapsed : Nat → Nat)
    (budget : Nat) (now : Int) (day page : Nat) (calls : List (Nat × Nat))
    (st : Stores) (df lpu : Nat) (h3 : ¬ 3 < page)
    (hb : budget < elapsed calls.length) :
    primeDay fetch elapsed budget now day page calls st df lpu
      = ⟨calls, st, df, lpu, some (day, page), false⟩ := by
  rw [primeDay, if_neg h3, if_pos hb]

theorem primeDay_empty (fetch : Nat → Nat → List SIssue) (elapsed : Nat → Nat)
    (budget : Nat) (now : Int) (day page : Nat) (calls : List (Nat × Nat))
    (st : Stores) (df lpu : Nat) (h3 : ¬ 3 < page)
    (hb : ¬ budget < elapsed calls.length) (he : (fetch day page).isEmpty) :
    primeDay fetch elapsed budget now day page calls st df lpu
      = ⟨calls ++ [(day, page)], st, df, lpu, none, false⟩ := by
  rw [primeDay, if_neg h3, if_neg hb, if_pos he]

theorem primeDay_err (fetch : Nat → Nat → List SIssue) (elapsed : Nat → Nat)
    (budget : Nat) (now : Int) (day page : Nat) (calls : List (Nat × Nat))
    (st : Stores) (df lpu : Nat) (h3 : ¬ 3 < page)
    (hb : ¬ budget < elapsed calls.length) (he : ¬ (fetch day page).isEmpty)
    (hpr : (primeIngest now st (fetch day page)).2 = true) :
    primeDay fetch elapsed budget now day page calls st df lpu
      = ⟨calls ++ [(day, page)], (primeIngest now st (fetch day page)).1,
         df + (fetch day page).length, lpu, none, true⟩ := by
  rw [primeDay, if_neg h3, if_neg hb, if_neg he, if_pos hpr]

theorem primeDay_short (fetch : Nat → Nat → List SIssue) (elapsed : Nat → Nat)
    (budget : Nat) (now : Int) (day page : Nat) (calls : List (Nat × Nat))
    (st : Stores) (df lpu : Nat) (h3 : ¬ 3 < page)
    (hb : ¬ budget < elapsed calls.length) (he : ¬ (fetch day page).isEmpty)
    (hpr : ¬ (primeIngest now st (fetch day page)).2 = true)
    (hlen : (fetch day page).length < 500) :
    primeDay fetch elapsed budget now day page calls st df lpu
      = ⟨calls ++ [(day, page)], (primeIngest now st (fetch day page)).1,
         df + (fetch day page).length, page, none, false⟩ := by
  rw [primeDay, if_neg h3, if_neg hb, if_neg he, if_neg hpr, if_pos hlen]

theorem primeDay_next (fetch : Nat → Nat → List SIssue) (elapsed : Nat → Nat)
    (budget : Nat) (now : Int) (day page : Nat) (calls : List (Nat × Nat))
    (st : Stores) (df lpu : Nat) (h3 : ¬ 3 < page)
    (hb : ¬ budget < elapsed calls.length) (he : ¬ (fetch day page).isEmpty)
    (hpr : ¬ (primeIngest now st (fetch day page)).2 = true)
    (hlen : ¬ (fetch day page).length < 500) :
    primeDay fetch elapsed budget now day page calls st df lpu
      = primeDay fetch elapsed budget now day (page + 1) (calls ++ [(day, page)])
          (primeIngest now st (fetch day page)).1 (df + (fetch day page).length)
          page := by
  rw [primeDay, if_neg h3, if_neg hb, if_neg he, if_neg hpr, if_neg hlen]

theorem zeroClock_not_lt (budget n : Nat) : ¬ budget < zeroClock n := by
  simp [zeroClock]

theorem ifTrueElab (a b : Nat) : (if (true : Bool) = true then a else b) = a := rfl

theorem ifFalseElab (a b : Nat) : (if (false : Bool) = true then a else b) = b := rfl

/-- A day run under the never-exhausted clock makes the same calls, store
updates and error outcome from any starting trace / fetched counters, and
never suspends: it is the canonical day run with its calls appended to the
incoming trace. -/
theorem zeroDay_shift (fetch : Nat → Nat → List SIssue) (budget : Nat)
    (now : Int) (day : Nat) :
    ∀ fuel page, 4 - page ≤ fuel → ∀ (calls : List (Nat × Nat)) (st : Stores)
      (df lpu : Nat),
      (primeDay fetch zeroClock budget now day page calls st df lpu).calls
        = calls ++ (zeroDay fetch budget now day page st).calls ∧
      (primeDay fetch zeroClock budget now day page calls st df lpu).stores
        = (zeroDay fetch budget now day page st).stores ∧
      (primeDay fetch zeroClock budget now day page calls st df lpu).resume = none ∧
      (primeDay fetch zeroClock budget now day page calls st df lpu).err
        = (zeroDay fetch budget now day page st).err := by
  intro fuel
  induction fuel with
  | zero =>
    intro page hf calls st df lpu
    have h3 : 3 < page := by omega
    rw [zeroDay, primeDay_stop _ _ _ _ _ _ _ _ _ _ h3,
      primeDay_stop _ _ _ _ _ _ _ _ _ _ h3]
    simp
  | succ fuel ih =>
    intro page hf calls st df lpu
    by_cases h3 : 3 < page
    · rw [zeroDay, primeDay_stop _ _ _ _ _ _ _ _ _ _ h3,
        primeDay_stop _ _ _ _ _ _ _ _ _ _ h3]
      simp
    · have hb : ¬ budget < zeroClock calls.length := zeroClock_not_lt _ _
      have hb0 : ¬ budget < zeroClock ([] : List (Nat × Nat)).length :=
        zeroClock_not_lt _ _
      by_cases he : (fetch day page).isEmpty
      · rw [zeroDay, primeDay_empty _ _ _ _ _ _ _ _ _ _ h3 hb he,
          primeDay_empty _ _ _ _ _ _ _ _ _ _ h3 hb0 he]
        simp
      · by_cases hpr : (primeIngest now st (fetch day page)).2 = true
        · rw [zeroDay, primeDay_err _ _ _ _ _ _ _ _ _ _ h3 hb he hpr,
            primeDay_err _ _ _ _ _ _ _ _ _ _ h3 hb0 he hpr]
          simp
        · by_cases hlen : (fetch day page).length < 500
          · rw [zeroDay, primeDay_short _ _ _ _ _ _ _ _ _ _ h3 hb he hpr hlen,
              primeDay_short _ _ _ _ _ _ _ _ _ _ h3 hb0 he hpr hlen]
            simp
          · rw [zeroDay, primeDay_next _ _ _ _ _ _ _ _ _ _ h3 hb he hpr hlen,
              primeDay_next _ _ _ _ _ _ _ _ _ _ h3 hb0 he hpr hlen]
            obtain ⟨hc1, hs1, hr1, he1⟩ :=
              ih (page + 1) (by omega) (calls ++ [(day, page)])
                (primeIngest now st (fetch day page)).1
                (df + (fetch day page).length) page
            obtain ⟨hc2, hs2, hr2, he2⟩ :=
              ih (page + 1) (by omega) ([] ++ [(day, page)])
                (primeIngest now st (fetch day page)).1
                (0 + (fetch day page).length) page
            refine ⟨?_, ?_, hr1, ?_⟩
            · rw [hc1, hc2]
              simp
            · rw [hs1, hs2]
            · rw [he1, he2]

/-- Dichotomy for a day run under an arbitrary clock: either it never hit
the budget — then it coincides with the canonical day run — or it recorded
a resume point `(day, rp)` with `page ≤ rp ≤ 3` at a moment the budget was
exceeded, and the canonical day run from `rp` on the suspended stores picks
up exactly where it left off. -/
theorem primeDay_cases (fetch : Nat → Nat → List SIssue) (elapsed : Nat → Nat)
    (budget : Nat) (now : Int) (day : Nat) :
    ∀ fuel page, 4 - page ≤ fuel → ∀ (calls : List (Nat × Nat)) (st : Stores)
      (df lpu : Nat),
      ((primeDay fetch elapsed budget now day page calls st df lpu).resume = none →
        (primeDay fetch elapsed budget now day page calls st df lpu).calls
          = calls ++ (zeroDay fetch budget now day page st).calls ∧
        (primeDay fetch elapsed budget now day page calls st df lpu).stores
          = (zeroDay fetch budget now day page st).stores) ∧
      (∀ rd rp,
        (primeDay fetch elapsed budget now day page calls st df lpu).resume
            = some (rd, rp) →
        rd = day ∧ page ≤ rp ∧ rp ≤ 3 ∧
        budget < elapsed
          (primeDay fetch elapsed budget now day page calls st df lpu).calls.length ∧
        (primeDay fetch elapsed budget now day page calls st df lpu).calls
            ++ (zeroDay fetch budget now day rp
                  (primeDay fetch elapsed budget now day page calls st df lpu).stores).calls
          = calls ++ (zeroDay fetch budget now day page st).calls ∧
        (zeroDay fetch budget now day rp
            (primeDay fetch elapsed budget now day page calls st df lpu).stores).stores
          = (zeroDay fetch budget now day page st).stores) := by
  intro fuel
  induction fuel with
  | zero =>
    intro page hf calls st df lpu
    have h3 : 3 < page := by omega
    rw [zeroDay, primeDay_stop _ _ _ _ _ _ _ _ _ _ h3,
      primeDay_stop _ _ _ _ _ _ _ _ _ _ h3]
    constructor
    · intro _
      simp
    · intro rd rp hr
      cases hr
  | succ fuel ih =>
    intro page hf calls st df lpu
    by_cases h3 : 3 < page
    · rw [zeroDay, primeDay_stop _ _ _ _ _ _ _ _ _ _ h3,
        primeDay_stop _ _ _ _ _ _ _ _ _ _ h3]
      constructor
      · intro _
        simp
      · intro rd rp hr
        cases hr
    · have hb0 : ¬ budget < zeroClock ([] : List (Nat × Nat)).length :=
        zeroClock_not_lt _ _
      by_cases hb : budget < elapsed calls.length
      · -- budget exhausted before the fetch: exact resume point recorded
        rw [primeDay_budget _ _ _ _ _ _ _ _ _ _ h3 hb]
        constructor
        · intro hr
          cases hr
        · intro rd rp hr
          have hrd : rd = day ∧ rp = page := by
            constructor <;> injection (Option.some.inj hr) with h1 h2
            · exact h1.symm
            · exact h2.symm
          obtain ⟨hrd1, hrd2⟩ := hrd
          subst hrd1
          subst hrd2
          exact ⟨rfl, le_refl _, by omega, hb, rfl, rfl⟩
      · by_cases he : (fetch day page).isEmpty
        · rw [zeroDay, primeDay_empty _ _ _ _ _ _ _ _ _ _ h3 hb he,
            primeDay_empty _ _ _ _ _ _ _ _ _ _ h3 hb0 he]
          constructor
          · intro _
            simp
          · intro rd rp hr
            cases hr
        · by_cases hpr : (primeIngest now st (fetch day page)).2 = true
          · rw [zeroDay, primeDay_err _ _ _ _ _ _ _ _ _ _ h3 hb he hpr,
              primeDay_err _ _ _ _ _ _ _ _ _ _ h3 hb0 he hpr]
            constructor
            · intro _
              simp
            · intro rd rp hr
              cases hr
          · by_cases hlen : (fetch day page).length < 500
            · rw [zeroDay, primeDay_short _ _ _ _ _ _ _ _ _ _ h3 hb he hpr hlen,
                primeDay_short _ _ _ _ _ _ _ _ _ _ h3 hb0 he hpr hlen]
              constructor
              · intro _
                simp
              · intro rd rp hr
                cases hr
            · rw [primeDay_next _ _ _ _ _ _ _ _ _ _ h3 hb he hpr hlen]
              have hz : (zeroDay fetch budget now day page st).calls
                    = [(day, page)]
                      ++ (zeroDay fetch budget now day (page + 1)
                            (primeIngest now st (fetch day page)).1).calls ∧
                  (zeroDay fetch budget now day page st).stores
                    = (zeroDay fetch budget now day (page + 1)
                        (primeIngest now st (fetch day page)).1).stores := by
                rw [zeroDay, primeDay_next _ _ _ _ _ _ _ _ _ _ h3 hb0 he hpr hlen]
                obtain ⟨hc, hs, _, _⟩ :=
                  zeroDay_shift fetch budget now day (4 - (page + 1)) (page + 1)
                    (le_refl _) ([] ++ [(day, page)])
                    (primeIngest now st (fetch day page)).1
                    (0 + (fetch day page).length) page
                rw [hc, hs]
                simp
              obtain ⟨ihn, ihs⟩ :=
                ih (page + 1) (by omega) (calls ++ [(day, page)])
                  (primeIngest now st (fetch day page)).1
                  (df + (fetch day page).length) page
              constructor
              · intro hr
                obtain ⟨hc, hs⟩ := ihn hr
                rw [hc, hs, hz.1, hz.2]
                simp
              · intro rd rp hr
                obtain ⟨h1, h2, h3', h4, h5, h6⟩ := ihs rd rp hr
                refine ⟨h1, by omega, h3', h4, ?_, ?_⟩
                · rw [h5, hz.1]
                  simp
                · rw [h6, hz.2]

/-! ### Outer-loop step lemmas (one unfolding of `primeLoop` per branch) -/

theorem primeLoop_stop (fetch : Nat → Nat → List SIssue) (elapsed : Nat → Nat)
    (budget : Nat) (now : Int) (endDate cur startPage : Nat) (firstDay : Bool)
    (calls : List (Nat × Nat)) (st : Stores) (tf lpu : Nat)
    (h : endDate < cur) :
    primeLoop fetch elapsed budget now endDate cur startPage firstDay calls st tf lpu
      = ⟨calls, st, { created := 0, updated := 0, fetched := tf,
                      complete := true, nextPage := 1, nextDate := none }⟩ := by
  rw [primeLoop, if_pos h]

theorem primeLoop_susp (fetch : Nat → Nat → List SIssue) (elapsed : Nat → Nat)
    (budget : Nat) (now : Int) (endDate cur startPage : Nat) (firstDay : Bool)
    (calls : List (Nat × Nat)) (st : Stores) (tf lpu : Nat)
    (h : ¬ endDate < cur)
    (hb : budget < elapsed
      (primeDay fetch elapsed budget now cur
        (if firstDay then max 1 startPage else 1) calls st 0 lpu).calls.length) :
    primeLoop fetch elapsed budget now endDate cur startPage firstDay calls st tf lpu
      = ⟨(primeDay fetch elapsed budget now cur
            (if firstDay then max 1 startPage else 1) calls st 0 lpu).calls,
         (primeDay fetch elapsed budget now cur
            (if firstDay then max 1 startPage else 1) calls st 0 lpu).stores,
         { created := 0, updated := 0,
           fetched := tf + (if (primeDay fetch elapsed budget now cur
              (if firstDay then max 1 startPage else 1) calls st 0 lpu).err then 0
             else (primeDay fetch elapsed budget now cur
              (if firstDay then max 1 startPage else 1) calls st 0 lpu).dayFetched),
           complete := false,
           nextPage := if ((primeDay fetch elapsed budget now cur
                (if firstDay then max 1 startPage else 1) calls st 0 lpu).resume.getD
                  (cur + 1, 1)).2 = 0 then
               (primeDay fetch elapsed budget now cur
                (if firstDay then max 1 startPage else 1) calls st 0 lpu).lastPageUsed + 1
             else ((primeDay fetch elapsed budget now cur
                (if firstDay then max 1 startPage else 1) calls st 0 lpu).resume.getD
                  (cur + 1, 1)).2,
           nextDate := some ((primeDay fetch elapsed budget now cur
              (if firstDay then max 1 startPage else 1) calls st 0 lpu).resume.getD
                (cur + 1, 1)).1 }⟩ := by
  rw [primeLoop, if_neg h, if_pos hb]

theorem primeLoop_next (fetch : Nat → Nat → List SIssue) (elapsed : Nat → Nat)
    (budget : Nat) (now : Int) (endDate cur startPage : Nat) (firstDay : Bool)
    (calls : List (Nat × Nat)) (st : Stores) (tf lpu : Nat)
    (h : ¬ endDate < cur)
    (hb : ¬ budget < elapsed
      (primeDay fetch elapsed budget now cur
        (if firstDay then max 1 startPage else 1) calls st 0 lpu).calls.length) :
    primeLoop fetch elapsed budget now endDate cur startPage firstDay calls st tf lpu
      = primeLoop fetch elapsed budget now endDate (cur + 1) 1 false
          (primeDay fetch elapsed budget now cur
            (if firstDay then max 1 startPage else 1) calls st 0 lpu).calls
          (primeDay fetch elapsed budget now cur
            (if firstDay then max 1 startPage else 1) calls st 0 lpu).stores
          (tf + (if (primeDay fetch elapsed budget now cur
              (if firstDay then max 1 startPage else 1) calls st 0 lpu).err then 0
            else (primeDay fetch elapsed budget now cur
              (if firstDay then max 1 startPage else 1) calls st 0 lpu).dayFetched))
          (primeDay fetch elapsed budget now cur
            (if firstDay then max 1 startPage else 1) calls st 0 lpu).lastPageUsed := by
  rw [primeLoop, if_neg h, if_neg hb]

/-- `primeLoop_next` specialized to a first day whose starting page is
already at least 1 (so `max 1 page0 = page0`). -/
theorem primeLoop_next1 (fetch : Nat → Nat → List SIssue) (elapsed : Nat → Nat)
    (budget : Nat) (now : Int) (endDate cur page0 : Nat)
    (calls : List (Nat × Nat)) (st : Stores) (tf lpu : Nat)
    (h : ¬ endDate < cur) (hp : max 1 page0 = page0)
    (hb : ¬ budget < elapsed
      (primeDay fetch elapsed budget now cur page0 calls st 0 lpu).calls.length) :
    primeLoop fetch elapsed budget now endDate cur page0 true calls st tf lpu
      = primeLoop fetch elapsed budget now endDate (cur + 1) 1 false
          (primeDay fetch elapsed budget now cur page0 calls st 0 lpu).calls
          (primeDay fetch elapsed budget now cur page0 calls st 0 lpu).stores
          (tf + (if (primeDay fetch elapsed budget now cur page0 calls st 0
              lpu).err then 0
            else (primeDay fetch elapsed budget now cur page0 calls st 0
              lpu).dayFetched))
          (primeDay fetch elapsed budget now cur page0 calls st 0 lpu).lastPageUsed := by
  have hpage : (if (true : Bool) = true then max 1 page0 else 1) = page0 := by
    rw [if_pos rfl, hp]
  rw [primeLoop, if_neg h, hpage, if_neg hb]

/-- An outer loop run under the never-exhausted clock completes, and makes
the canonical calls and store updates from any incoming trace and
counters. -/
theorem zeroFrom_shift (fetch : Nat → Nat → List SIssue) (budget : Nat)
    (now : Int) (endDate : Nat) :
    ∀ fuel cur, endDate + 1 - cur ≤ fuel →
      ∀ (sp : Nat) (fd : Bool) (calls : List (Nat × Nat)) (st : Stores)
        (tf lpu : Nat),
      (primeLoop fetch zeroClock budget now endDate cur sp fd calls st tf lpu).calls
        = calls ++ (zeroFrom fetch budget now endDate cur
            (if fd then max 1 sp else 1) st).calls ∧
      (primeLoop fetch zeroClock budget now endDate cur sp fd calls st tf lpu).stores
        = (zeroFrom fetch budget now endDate cur
            (if fd then max 1 sp else 1) st).stores ∧
      (primeLoop fetch zeroClock budget now endDate cur sp fd calls st tf
          lpu).summary.complete = true ∧
      (primeLoop fetch zeroClock budget now endDate cur sp fd calls st tf
          lpu).summary.nextDate = none ∧
      (primeLoop fetch zeroClock budget now endDate cur sp fd calls st tf
          lpu).summary.nextPage = 1 := by
  intro fuel
  induction fuel with
  | zero =>
    intro cur hf sp fd calls st tf lpu
    have h : endDate < cur := by omega
    rw [zeroFrom, primeLoop_stop _ _ _ _ _ _ _ _ _ _ _ _ h,
      primeLoop_stop _ _ _ _ _ _ _ _ _ _ _ _ h]
    simp
  | succ fuel ih =>
    intro cur hf sp fd calls st tf lpu
    by_cases h : endDate < cur
    · rw [zeroFrom, primeLoop_stop _ _ _ _ _ _ _ _ _ _ _ _ h,
        primeLoop_stop _ _ _ _ _ _ _ _ _ _ _ _ h]
      simp
    · have hp0 : max 1 (if fd then max 1 sp else 1) = (if fd then max 1 sp else 1) := by
        cases fd <;> simp
      have hb : ∀ c : List (Nat × Nat), ¬ budget < zeroClock c.length :=
        fun c => zeroClock_not_lt _ _
      obtain ⟨hdc, hds, hdr, hde⟩ :=
        zeroDay_shift fetch budget now cur 4 (if fd then max 1 sp else 1)
          (by omega) calls st 0 lpu
      rw [primeLoop_next _ _ _ _ _ _ _ _ _ _ _ _ h (hb _)]
      obtain ⟨hZc, hZs, hZ1, hZ2, hZ3⟩ :=
        ih (cur + 1) (by omega) 1 false
          (primeDay fetch zeroClock budget now cur
            (if fd then max 1 sp else 1) calls st 0 lpu).calls
          (primeDay fetch zeroClock budget now cur
            (if fd then max 1 sp else 1) calls st 0 lpu).stores
          (tf + (if (primeDay fetch zeroClock budget now cur
              (if fd then max 1 sp else 1) calls st 0 lpu).err then 0
            else (primeDay fetch zeroClock budget now cur
              (if fd then max 1 sp else 1) calls st 0 lpu).dayFetched))
          (primeDay fetch zeroClock budget now cur
            (if fd then max 1 sp else 1) calls st 0 lpu).lastPageUsed
      rw [ifFalseElab] at hZc hZs
      -- canonical side: unfold one day of `zeroFrom`
      have hz :
          (zeroFrom fetch budget now endDate cur (if fd then max 1 sp else 1) st).calls
            = (zeroDay fetch budget now cur (if fd then max 1 sp else 1) st).calls
              ++ (zeroFrom fetch budget now endDate (cur + 1) 1
                    (zeroDay fetch budget now cur
                      (if fd then max 1 sp else 1) st).stores).calls ∧
          (zeroFrom fetch budget now endDate cur (if fd then max 1 sp else 1) st).stores
            = (zeroFrom fetch budget now endDate (cur + 1) 1
                (zeroDay fetch budget now cur
                  (if fd then max 1 sp else 1) st).stores).stores := by
        rw [zeroFrom, primeLoop_next1 _ _ _ _ _ _ _ _ _ _ _ h hp0 (hb _)]
        obtain ⟨hd0c, hd0s, _, _⟩ :=
          zeroDay_shift fetch budget now cur 4 (if fd then max 1 sp else 1)
            (by omega) [] st 0 1
        obtain ⟨hZc', hZs', _, _, _⟩ :=
          ih (cur + 1) (by omega) 1 false
            (primeDay fetch zeroClock budget now cur
              (if fd then max 1 sp else 1) [] st 0 1).calls
            (primeDay fetch zeroClock budget now cur
              (if fd then max 1 sp else 1) [] st 0 1).stores
            (0 + (if (primeDay fetch zeroClock budget now cur
                (if fd then max 1 sp else 1) [] st 0 1).err then 0
              else (primeDay fetch zeroClock budget now cur
                (if fd then max 1 sp else 1) [] st 0 1).dayFetched))
            (primeDay fetch zeroClock budget now cur
              (if fd then max 1 sp else 1) [] st 0 1).lastPageUsed
        rw [ifFalseElab] at hZc' hZs'
        rw [hZc', hZs', hd0c, hd0s]
        constructor
        · simp [zeroDay]
        · rfl
      refine ⟨?_, ?_, hZ1, hZ2, hZ3⟩
      · rw [hZc, hdc, hds, hz.1]
        simp [zeroDay]
      · rw [hZs, hds, hz.2]

/-- One day of the canonical pass: the canonical day from `page0`, then the
canonical pass from the next day at page 1 on the day's resulting
stores. -/
theorem zeroFrom_step (fetch : Nat → Nat → List SIssue) (budget : Nat)
    (now : Int) (endDate cur page0 : Nat) (st : Stores) (h : ¬ endDate < cur)
    (hp : 1 ≤ page0) :
    (zeroFrom fetch budget now endDate cur page0 st).calls
      = (zeroDay fetch budget now cur page0 st).calls
        ++ (zeroFrom fetch budget now endDate (cur + 1) 1
              (zeroDay fetch budget now cur page0 st).stores).calls ∧
    (zeroFrom fetch budget now endDate cur page0 st).stores
      = (zeroFrom fetch budget now endDate (cur + 1) 1
          (zeroDay fetch budget now cur page0 st).stores).stores := by
  have hp0 : max 1 page0 = page0 := by omega
  rw [zeroFrom, primeLoop_next1 _ _ _ _ _ _ _ _ _ _ _ h hp0 (zeroClock_not_lt _ _)]
  obtain ⟨hd0c, hd0s, _, _⟩ :=
    zeroDay_shift fetch budget now cur 4 page0 (by omega) [] st 0 1
  obtain ⟨hZc', hZs', _, _, _⟩ :=
    zeroFrom_shift fetch budget now endDate (endDate + 1 - (cur + 1)) (cur + 1)
      (le_refl _) 1 false
      (primeDay fetch zeroClock budget now cur page0 [] st 0 1).calls
      (primeDay fetch zeroClock budget now cur page0 [] st 0 1).stores
      (0 + (if (primeDay fetch zeroClock budget now cur page0 [] st 0 1).err then 0
        else (primeDay fetch zeroClock budget now cur page0 [] st 0 1).dayFetched))
      (primeDay fetch zeroClock budget now cur page0 [] st 0 1).lastPageUsed
  rw [ifFalseElab] at hZc' hZs'
  rw [hZc', hZs', hd0c, hd0s]
  constructor
  · simp [zeroDay]
  · rfl

/-- Dichotomy for the outer loop under an arbitrary clock.  A completed run
made exactly the canonical calls and store updates.  A suspended run
recorded `(next_date, next_page)` with `1 ≤ next_page ≤ 3` such that the
canonical pass resumed from that exact point on the suspended stores
finishes precisely the calls and store updates of the canonical
uninterrupted pass: nothing is skipped and nothing is refetched. -/
theorem primeLoop_cases (fetch : Nat → Nat → List SIssue) (elapsed : Nat → Nat)
    (budget : Nat) (now : Int) (endDate : Nat) :
    ∀ fuel cur, endDate + 1 - cur ≤ fuel →
      ∀ (sp : Nat) (fd : Bool) (calls : List (Nat × Nat)) (st : Stores)
        (tf lpu : Nat),
      ((primeLoop fetch elapsed budget now endDate cur sp fd calls st tf
            lpu).summary.complete = true →
        (primeLoop fetch elapsed budget now endDate cur sp fd calls st tf lpu).calls
          = calls ++ (zeroFrom fetch budget now endDate cur
              (if fd then max 1 sp else 1) st).calls ∧
        (primeLoop fetch elapsed budget now endDate cur sp fd calls st tf
            lpu).stores
          = (zeroFrom fetch budget now endDate cur
              (if fd then max 1 sp else 1) st).stores) ∧
      ((primeLoop fetch elapsed budget now endDate cur sp fd calls st tf
            lpu).summary.complete = false →
        ∃ d p,
          (primeLoop fetch elapsed budget now endDate cur sp fd calls st tf
              lpu).summary.nextDate = some d ∧
          (primeLoop fetch elapsed budget now endDate cur sp fd calls st tf
              lpu).summary.nextPage = p ∧
          1 ≤ p ∧ p ≤ 3 ∧
          (primeLoop fetch elapsed budget now endDate cur sp fd calls st tf
              lpu).calls
            ++ (zeroFrom fetch budget now endDate d p
                  (primeLoop fetch elapsed budget now endDate cur sp fd calls st
                    tf lpu).stores).calls
            = calls ++ (zeroFrom fetch budget now endDate cur
                (if fd then max 1 sp else 1) st).calls ∧
          (zeroFrom fetch budget now endDate d p
              (primeLoop fetch elapsed budget now endDate cur sp fd calls st tf
                lpu).stores).stores
            = (zeroFrom fetch budget now endDate cur
                (if fd then max 1 sp else 1) st).stores) := by
  intro fuel
  induction fuel with
  | zero =>
    intro cur hf sp fd calls st tf lpu
    have h : endDate < cur := by omega
    rw [primeLoop_stop _ _ _ _ _ _ _ _ _ _ _ _ h]
    constructor
    · intro _
      rw [zeroFrom, primeLoop_stop _ _ _ _ _ _ _ _ _ _ _ _ h]
      simp
    · intro hc
      simp at hc
  | succ fuel ih =>
    intro cur hf sp fd calls st tf lpu
    by_cases h : endDate < cur
    · rw [primeLoop_stop _ _ _ _ _ _ _ _ _ _ _ _ h]
      constructor
      · intro _
        rw [zeroFrom, primeLoop_stop _ _ _ _ _ _ _ _ _ _ _ _ h]
        simp
      · intro hc
        simp at hc
    · have hp1 : 1 ≤ (if fd then max 1 sp else 1) := by
        cases fd <;> simp
      obtain ⟨hnone, hsome⟩ :=
        primeDay_cases fetch elapsed budget now cur 4
          (if fd then max 1 sp else 1) (by omega) calls st 0 lpu
      obtain ⟨hstep1, hstep2⟩ :=
        zeroFrom_step fetch budget now endDate cur
          (if fd then max 1 sp else 1) st h hp1
      by_cases hb : budget < elapsed
          (primeDay fetch elapsed budget now cur
            (if fd then max 1 sp else 1) calls st 0 lpu).calls.length
      · rw [primeLoop_susp _ _ _ _ _ _ _ _ _ _ _ _ h hb]
        constructor
        · intro hc
          simp at hc
        · intro _
          cases hres : (primeDay fetch elapsed budget now cur
              (if fd then max 1 sp else 1) calls st 0 lpu).resume with
          | some r =>
            obtain ⟨hrd, hple, hrle, _, hcat, hsto⟩ :=
              hsome r.1 r.2 (by rw [hres])
            refine ⟨r.1, r.2, ?_, ?_, by omega, hrle, ?_, ?_⟩
            · simp [hres]
            · have hr2 : ¬ r.2 = 0 := by omega
              simp [hres, hr2]
            · subst hrd
              obtain ⟨hs1, _⟩ :=
                zeroFrom_step fetch budget now endDate r.1 r.2
                  (primeDay fetch elapsed budget now r.1
                    (if fd then max 1 sp else 1) calls st 0 lpu).stores h
                  (by omega)
              rw [hs1, hstep1, hsto, ← List.append_assoc, hcat,
                List.append_assoc]
            · subst hrd
              obtain ⟨_, hs2⟩ :=
                zeroFrom_step fetch budget now endDate r.1 r.2
                  (primeDay fetch elapsed budget now r.1
                    (if fd then max 1 sp else 1) calls st 0 lpu).stores h
                  (by omega)
              rw [hs2, hsto, hstep2]
          | none =>
            obtain ⟨hc, hs⟩ := hnone hres
            refine ⟨cur + 1, 1, ?_, ?_, by omega, by omega, ?_, ?_⟩
            · simp [hres]
            · simp [hres]
            · rw [hc, hs, hstep1]
              simp [List.append_assoc]
            · rw [hs, hstep2]
      · have hresn : (primeDay fetch elapsed budget now cur
            (if fd then max 1 sp else 1) calls st 0 lpu).resume = none := by
          cases hres : (primeDay fetch elapsed budget now cur
              (if fd then max 1 sp else 1) calls st 0 lpu).resume with
          | none => rfl
          | some r =>
            obtain ⟨_, _, _, hbud, _, _⟩ := hsome r.1 r.2 (by rw [hres])
            exact absurd hbud hb
        obtain ⟨hc, hs⟩ := hnone hresn
        rw [primeLoop_next _ _ _ _ _ _ _ _ _ _ _ _ h hb]
        obtain ⟨ih1, ih2⟩ :=
          ih (cur + 1) (by omega) 1 false
            (primeDay fetch elapsed budget now cur
              (if fd then max 1 sp else 1) calls st 0 lpu).calls
            (primeDay fetch elapsed budget now cur
              (if fd then max 1 sp else 1) calls st 0 lpu).stores
            (tf + (if (primeDay fetch elapsed budget now cur
                (if fd then max 1 sp else 1) calls st 0 lpu).err then 0
              else (primeDay fetch elapsed budget now cur
                (if fd then max 1 sp else 1) calls st 0 lpu).dayFetched))
            (primeDay fetch elapsed budget now cur
              (if fd then max 1 sp else 1) calls st 0 lpu).lastPageUsed
        rw [ifFalseElab] at ih1 ih2
        constructor
        · intro hcomp
          obtain ⟨hic, his⟩ := ih1 hcomp
          constructor
          · rw [hic, hc, hs, hstep1]
            simp
          · rw [his, hs, hstep2]
        · intro hcomp
          obtain ⟨d, p, h1, h2, h3, h4, h5, h6⟩ := ih2 hcomp
          refine ⟨d, p, h1, h2, h3, h4, ?_, ?_⟩
          · rw [h5, hc, hs, hstep1]
            simp
          · rw [h6, hs, hstep2]

/-! ### Shape of the canonical call trace: membership, ordering, head -/

theorem mem_zeroDay_calls (fetch : Nat → Nat → List SIssue) (budget : Nat)
    (now : Int) (day : Nat) :
    ∀ fuel page, 4 - page ≤ fuel → ∀ (st : Stores) (x : Nat × Nat),
      x ∈ (zeroDay fetch budget now day page st).calls →
      x.1 = day ∧ page ≤ x.2 ∧ x.2 ≤ 3 := by
  intro fuel
  induction fuel with
  | zero =>
    intro page hf st x hx
    have h3 : 3 < page := by omega
    rw [zeroDay, primeDay_stop _ _ _ _ _ _ _ _ _ _ h3] at hx
    simp at hx
  | succ fuel ih =>
    intro page hf st x hx
    by_cases h3 : 3 < page
    · rw [zeroDay, primeDay_stop _ _ _ _ _ _ _ _ _ _ h3] at hx
      simp at hx
    · have hb0 : ¬ budget < zeroClock ([] : List (Nat × Nat)).length :=
        zeroClock_not_lt _ _
      by_cases he : (fetch day page).isEmpty
      · rw [zeroDay, primeDay_empty _ _ _ _ _ _ _ _ _ _ h3 hb0 he] at hx
        simp at hx
        subst hx
        exact ⟨rfl, le_refl _, by omega⟩
      · by_cases hpr : (primeIngest now st (fetch day page)).2 = true
        · rw [zeroDay, primeDay_err _ _ _ _ _ _ _ _ _ _ h3 hb0 he hpr] at hx
          simp at hx
          subst hx
          exact ⟨rfl, le_refl _, by omega⟩
        · by_cases hlen : (fetch day page).length < 500
          · rw [zeroDay,
              primeDay_short _ _ _ _ _ _ _ _ _ _ h3 hb0 he hpr hlen] at hx
            simp at hx
            subst hx
            exact ⟨rfl, le_refl _, by omega⟩
          · rw [zeroDay,
              primeDay_next _ _ _ _ _ _ _ _ _ _ h3 hb0 he hpr hlen] at hx
            obtain ⟨hc, _, _, _⟩ :=
              zeroDay_shift fetch budget now day (4 - (page + 1)) (page + 1)
                (le_refl _) ([] ++ [(day, page)])
                (primeIngest now st (fetch day page)).1
                (0 + (fetch day page).length) page
            rw [hc] at hx
            simp at hx
            rcases hx with hx | hx
            · subst hx
              exact ⟨rfl, le_refl _, by omega⟩
            · obtain ⟨h1, h2, h3'⟩ := ih (page + 1) (by omega) _ x hx
              exact ⟨h1, by omega, h3'⟩

theorem pairwise_zeroDay_calls (fetch : Nat → Nat → List SIssue) (budget : Nat)
    (now : Int) (day : Nat) :
    ∀ fuel page, 4 - page ≤ fuel → ∀ (st : Stores),
      ((zeroDay fetch budget now day page st).calls).Pairwise
        (fun a c => a.2 < c.2) := by
  intro fuel
  induction fuel with
  | zero =>
    intro page hf st
    have h3 : 3 < page := by omega
    rw [zeroDay, primeDay_stop _ _ _ _ _ _ _ _ _ _ h3]
    simp
  | succ fuel ih =>
    intro page hf st
    by_cases h3 : 3 < page
    · rw [zeroDay, primeDay_stop _ _ _ _ _ _ _ _ _ _ h3]
      simp
    · have hb0 : ¬ budget < zeroClock ([] : List (Nat × Nat)).length :=
        zeroClock_not_lt _ _
      by_cases he : (fetch day page).isEmpty
      · rw [zeroDay, primeDay_empty _ _ _ _ _ _ _ _ _ _ h3 hb0 he]
        simp
      · by_cases hpr : (primeIngest now st (fetch day page)).2 = true
        · rw [zeroDay, primeDay_err _ _ _ _ _ _ _ _ _ _ h3 hb0 he hpr]
          simp
        · by_cases hlen : (fetch day page).length < 500
          · rw [zeroDay,
              primeDay_short _ _ _ _ _ _ _ _ _ _ h3 hb0 he hpr hlen]
            simp
          · rw [zeroDay,
              primeDay_next _ _ _ _ _ _ _ _ _ _ h3 hb0 he hpr hlen]
            obtain ⟨hc, _, _, _⟩ :=
              zeroDay_shift fetch budget now day (4 - (page + 1)) (page + 1)
                (le_refl _) ([] ++ [(day, page)])
                (primeIngest now st (fetch day page)).1
                (0 + (fetch day page).length) page
            rw [hc]
            simp only [List.nil_append, List.singleton_append,
              List.pairwise_cons]
            constructor
            · intro y hy
              obtain ⟨_, h2, _⟩ :=
                mem_zeroDay_calls fetch budget now day (4 - (page + 1))
                  (page + 1) (le_refl _) _ y hy
              omega
            · exact ih (page + 1) (by omega) _

theorem zeroDay_calls_cons (fetch : Nat → Nat → List SIssue) (budget : Nat)
    (now : Int) (day page : Nat) (st : Stores) (h3 : ¬ 3 < page) :
    ∃ t, (zeroDay fetch budget now day page st).calls = (day, page) :: t := by
  have hb0 : ¬ budget < zeroClock ([] : List (Nat × Nat)).length :=
    zeroClock_not_lt _ _
  by_cases he : (fetch day page).isEmpty
  · rw [zeroDay, primeDay_empty _ _ _ _ _ _ _ _ _ _ h3 hb0 he]
    exact ⟨[], rfl⟩
  · by_cases hpr : (primeIngest now st (fetch day page)).2 = true
    · rw [zeroDay, primeDay_err _ _ _ _ _ _ _ _ _ _ h3 hb0 he hpr]
      exact ⟨[], rfl⟩
    · by_cases hlen : (fetch day page).length < 500
      · rw [zeroDay, primeDay_short _ _ _ _ _ _ _ _ _ _ h3 hb0 he hpr hlen]
        exact ⟨[], rfl⟩
      · rw [zeroDay, primeDay_next _ _ _ _ _ _ _ _ _ _ h3 hb0 he hpr hlen]
        obtain ⟨hc, _, _, _⟩ :=
          zeroDay_shift fetch budget now day (4 - (page + 1)) (page + 1)
            (le_refl _) ([] ++ [(day, page)])
            (primeIngest now st (fetch day page)).1
            (0 + (fetch day page).length) page
        rw [hc]
        exact ⟨(zeroDay fetch budget now day (page + 1)
          (primeIngest now st (fetch day page)).1).calls, by simp⟩

theorem mem_zeroFrom_calls (fetch : Nat → Nat → List SIssue) (budget : Nat)
    (now : Int) (endDate : Nat) :
    ∀ fuel cur, endDate + 1 - cur ≤ fuel → ∀ (page0 : Nat) (st : Stores)
      (x : Nat × Nat), 1 ≤ page0 →
      x ∈ (zeroFrom fetch budget now endDate cur page0 st).calls →
      cur ≤ x.1 := by
  intro fuel
  induction fuel with
  | zero =>
    intro cur hf page0 st x hp hx
    have h : endDate < cur := by omega
    rw [zeroFrom, primeLoop_stop _ _ _ _ _ _ _ _ _ _ _ _ h] at hx
    simp at hx
  | succ fuel ih =>
    intro cur hf page0 st x hp hx
    by_cases h : endDate < cur
    · rw [zeroFrom, primeLoop_stop _ _ _ _ _ _ _ _ _ _ _ _ h] at hx
      simp at hx
    · rw [(zeroFrom_step fetch budget now endDate cur page0 st h hp).1] at hx
      rcases List.mem_append.mp hx with hx | hx
      · obtain ⟨h1, _, _⟩ :=
          mem_zeroDay_calls fetch budget now cur 4 page0 (by omega) _ x hx
        omega
      · have := ih (cur + 1) (by omega) 1 _ x (le_refl _) hx
        omega

theorem pairwise_zeroFrom_calls (fetch : Nat → Nat → List SIssue)
    (budget : Nat) (now : Int) (endDate : Nat) :
    ∀ fuel cur, endDate + 1 - cur ≤ fuel → ∀ (page0 : Nat) (st : Stores),
      1 ≤ page0 →
      ((zeroFrom fetch budget now endDate cur page0 st).calls).Pairwise callLt := by
  intro fuel
  induction fuel with
  | zero =>
    intro cur hf page0 st hp
    have h : endDate < cur := by omega
    rw [zeroFrom, primeLoop_stop _ _ _ _ _ _ _ _ _ _ _ _ h]
    simp
  | succ fuel ih =>
    intro cur hf page0 st hp
    by_cases h : endDate < cur
    · rw [zeroFrom, primeLoop_stop _ _ _ _ _ _ _ _ _ _ _ _ h]
      simp
    · rw [(zeroFrom_step fetch budget now endDate cur page0 st h hp).1]
      rw [List.pairwise_append]
      refine ⟨?_, ih (cur + 1) (by omega) 1 _ (le_refl _), ?_⟩
      · refine List.Pairwise.imp_of_mem ?_
          (pairwise_zeroDay_calls fetch budget now cur 4 page0 (by omega) st)
        intro a b ha hb hlt
        obtain ⟨ha1, _, _⟩ :=
          mem_zeroDay_calls fetch budget now cur 4 page0 (by omega) _ a ha
        obtain ⟨hb1, _, _⟩ :=
          mem_zeroDay_calls fetch budget now cur 4 page0 (by omega) _ b hb
        exact Or.inr ⟨ha1.trans hb1.symm, hlt⟩
      · intro a ha b hb
        obtain ⟨ha1, _, _⟩ :=
          mem_zeroDay_calls fetch budget now cur 4 page0 (by omega) _ a ha
        have hb1 := mem_zeroFrom_calls fetch budget now endDate
          (endDate + 1 - (cur + 1)) (cur + 1) (le_refl _) 1 _ b (le_refl _) hb
        exact Or.inl (by omega)

theorem zeroFrom_calls_cons (fetch : Nat → Nat → List SIssue) (budget : Nat)
    (now : Int) (endDate cur page0 : Nat) (st : Stores)
    (h : ¬ endDate < cur) (hp : 1 ≤ page0) (h3 : ¬ 3 < page0) :
    ∃ t, (zeroFrom fetch budget now endDate cur page0 st).calls
      = (cur, page0) :: t := by
  obtain ⟨t1, ht1⟩ := zeroDay_calls_cons fetch budget now cur page0 st h3
  refine ⟨t1 ++ (zeroFrom fetch budget now endDate (cur + 1) 1
    (zeroDay fetch budget now cur page0 st).stores).calls, ?_⟩
  rw [(zeroFrom_step fetch budget now endDate cur page0 st h hp).1, ht1]
  simp

theorem primeRun_fresh (fetch : Nat → Nat → List SIssue) (elapsed : Nat → Nat)
    (budget : Nat) (now : Int) (startDate endDate : Nat) (st : Stores) :
    primeRun true fetch elapsed budget now startDate endDate 1 none st
      = primeLoop fetch elapsed budget now endDate startDate 1 true [] st 0 1 := rfl

theorem primeRun_resumed (fetch : Nat → Nat → List SIssue) (elapsed : Nat → Nat)
    (budget : Nat) (now : Int) (startDate endDate p d : Nat) (st : Stores) :
    primeRun true fetch elapsed budget now startDate endDate p (some d) st
      = primeLoop fetch elapsed budget now endDate d p true [] st 0 (max 1 p) := rfl

/-- C1: when `prime_issues_for_date_range` (first invocation: `start_page =
1`, no resume date) suspends on budget exhaustion, the summary's
`(next_date, next_page)` is exactly the remote call it was about to make,
and a second invocation resumed at `resume_date = next_date`, `start_page =
next_page` over the stores the first left behind (under a clock that never
exhausts the budget) processes exactly the remaining work: the two call
traces concatenate to the canonical uninterrupted pass's trace, which is
strictly ascending in `(date, page)` order — so the resumed pass walks the
remaining days in ascending order, the first resumed day from the recorded
page and later days from page 1, and repeats no `(date, page)` pair already
fetched; its first call is `(next_date, next_page)` whenever the resumed
date is still in range, and it completes. -/
theorem prime_resume_correct (fetch : Nat → Nat → List SIssue)
    (elapsed : Nat → Nat) (budget : Nat) (now : Int) (startDate endDate : Nat)
    (st : Stores) (d : Nat)
    (hc : (primeRun true fetch elapsed budget now startDate endDate 1 none
        st).summary.complete = false)
    (hd : (primeRun true fetch elapsed budget now startDate endDate 1 none
        st).summary.nextDate = some d) :
    (primeRun true fetch elapsed budget now startDate endDate 1 none st).calls
        ++ (primeRun true fetch zeroClock budget now startDate endDate
              (primeRun true fetch elapsed budget now startDate endDate 1 none
                st).summary.nextPage (some d)
              (primeRun true fetch elapsed budget now startDate endDate 1 none
                st).stores).calls
      = (primeRun true fetch zeroClock budget now startDate endDate 1 none
          st).calls ∧
    ((primeRun true fetch zeroClock budget now startDate endDate 1 none
        st).calls).Pairwise callLt ∧
    (∀ c ∈ (primeRun true fetch elapsed budget now startDate endDate 1 none
        st).calls,
      c ∉ (primeRun true fetch zeroClock budget now startDate endDate
            (primeRun true fetch elapsed budget now startDate endDate 1 none
              st).summary.nextPage (some d)
            (primeRun true fetch elapsed budget now startDate endDate 1 none
              st).stores).calls) ∧
    (primeRun true fetch zeroClock budget now startDate endDate
        (primeRun true fetch elapsed budget now startDate endDate 1 none
          st).summary.nextPage (some d)
        (primeRun true fetch elapsed budget now startDate endDate 1 none
          st).stores).summary.complete = true ∧
    (d ≤ endDate →
      (primeRun true fetch zeroClock budget now startDate endDate
          (primeRun true fetch elapsed budget now startDate endDate 1 none
            st).summary.nextPage (some d)
          (primeRun true fetch elapsed budget now startDate endDate 1 none
            st).stores).calls.head?
        = some (d, (primeRun true fetch elapsed budget now startDate endDate 1
            none st).summary.nextPage)) := by
  rw [primeRun_fresh] at hc hd
  rw [primeRun_fresh fetch elapsed, primeRun_fresh fetch zeroClock,
    primeRun_resumed]
  have hone : (if (true : Bool) = true then max 1 1 else 1) = 1 := rfl
  obtain ⟨_, hincomp⟩ :=
    primeLoop_cases fetch elapsed budget now endDate (endDate + 1) startDate
      (by omega) 1 true [] st 0 1
  rw [hone] at hincomp
  obtain ⟨d', p', hnd, hnp, hp1, hp3, hcat, hsto⟩ := hincomp hc
  have hdd : d' = d := by
    rw [hnd] at hd
    exact Option.some.inj hd
  rw [hdd] at hcat hsto
  rw [List.nil_append] at hcat
  -- canonical full run
  obtain ⟨hFc, hFs, _, _, _⟩ :=
    zeroFrom_shift fetch budget now endDate (endDate + 1) startDate (by omega)
      1 true [] st 0 1
  rw [hone, List.nil_append] at hFc
  -- resumed run
  have hnorm : (if (true : Bool) = true
      then max 1 ((primeLoop fetch elapsed budget now endDate startDate 1 true
        [] st 0 1).summary.nextPage) else 1) = p' := by
    rw [ifTrueElab, hnp]
    omega
  obtain ⟨hRc, hRs, hRcm, _, _⟩ :=
    zeroFrom_shift fetch budget now endDate (endDate + 1) d (by omega)
      ((primeLoop fetch elapsed budget now endDate startDate 1 true [] st 0
        1).summary.nextPage) true []
      (primeLoop fetch elapsed budget now endDate startDate 1 true [] st 0
        1).stores 0
      (max 1 ((primeLoop fetch elapsed budget now endDate startDate 1 true []
        st 0 1).summary.nextPage))
  rw [hnorm, List.nil_append] at hRc
  have hconc : (primeLoop fetch elapsed budget now endDate startDate 1 true []
        st 0 1).calls
      ++ (primeLoop fetch zeroClock budget now endDate d
            ((primeLoop fetch elapsed budget now endDate startDate 1 true []
              st 0 1).summary.nextPage) true []
            (primeLoop fetch elapsed budget now endDate startDate 1 true [] st
              0 1).stores 0
            (max 1 ((primeLoop fetch elapsed budget now endDate startDate 1
              true [] st 0 1).summary.nextPage))).calls
      = (primeLoop fetch zeroClock budget now endDate startDate 1 true [] st 0
          1).calls := by
    rw [hRc, hFc]
    exact hcat
  have hpwF : ((primeLoop fetch zeroClock budget now endDate startDate 1 true
      [] st 0 1).calls).Pairwise callLt := by
    rw [hFc]
    exact pairwise_zeroFrom_calls fetch budget now endDate (endDate + 1)
      startDate (by omega) 1 st (le_refl _)
  refine ⟨hconc, hpwF, ?_, hRcm, ?_⟩
  · have hpw2 := hpwF
    rw [← hconc] at hpw2
    obtain ⟨_, _, hcross⟩ := List.pairwise_append.mp hpw2
    intro c h1 h2
    have hlt := hcross c h1 c h2
    rcases hlt with hlt | ⟨_, hlt⟩ <;> omega
  · intro hde
    rw [hRc]
    obtain ⟨t, ht⟩ :=
      zeroFrom_calls_cons fetch budget now endDate d p'
        (primeLoop fetch elapsed budget now endDate startDate 1 true [] st 0
          1).stores (by omega) (by omega) (by omega)
    rw [ht, hnp]
    rfl

theorem prime_resume_correct_witness :
    ((primeRun true (fun _ _ => []) (fun n => n * 10) 5 0 0 2 1 none
        ⟨[], [], []⟩).summary.complete = false ∧
      (primeRun true (fun _ _ => []) (fun n => n * 10) 5 0 0 2 1 none
        ⟨[], [], []⟩).summary.nextDate = some 1) ∧
    ((primeRun true (fun _ _ => []) (fun n => n * 10) 5 0 0 2 1 none
        ⟨[], [], []⟩).calls
        ++ (primeRun true (fun _ _ => []) zeroClock 5 0 0 2
              (primeRun true (fun _ _ => []) (fun n => n * 10) 5 0 0 2 1 none
                ⟨[], [], []⟩).summary.nextPage (some 1)
              (primeRun true (fun _ _ => []) (fun n => n * 10) 5 0 0 2 1 none
                ⟨[], [], []⟩).stores).calls
      = (primeRun true (fun _ _ => []) zeroClock 5 0 0 2 1 none
          ⟨[], [], []⟩).calls ∧
    ((primeRun true (fun _ _ => []) zeroClock 5 0 0 2 1 none
        ⟨[], [], []⟩).calls).Pairwise callLt ∧
    (∀ c ∈ (primeRun true (fun _ _ => []) (fun n => n * 10) 5 0 0 2 1 none
        ⟨[], [], []⟩).calls,
      c ∉ (primeRun true (fun _ _ => []) zeroClock 5 0 0 2
            (primeRun true (fun _ _ => []) (fun n => n * 10) 5 0 0 2 1 none
              ⟨[], [], []⟩).summary.nextPage (some 1)
            (primeRun true (fun _ _ => []) (fun n => n * 10) 5 0 0 2 1 none
              ⟨[], [], []⟩).stores).calls) ∧
    (primeRun true (fun _ _ => []) zeroClock 5 0 0 2
        (primeRun true (fun _ _ => []) (fun n => n * 10) 5 0 0 2 1 none
          ⟨[], [], []⟩).summary.nextPage (some 1)
        (primeRun true (fun _ _ => []) (fun n => n * 10) 5 0 0 2 1 none
          ⟨[], [], []⟩).stores).summary.complete = true ∧
    (1 ≤ 2 →
      (primeRun true (fun _ _ => []) zeroClock 5 0 0 2
          (primeRun true (fun _ _ => []) (fun n => n * 10) 5 0 0 2 1 none
            ⟨[], [], []⟩).summary.nextPage (some 1)
          (primeRun true (fun _ _ => []) (fun n => n * 10) 5 0 0 2 1 none
            ⟨[], [], []⟩).stores).calls.head?
        = some (1, (primeRun true (fun _ _ => []) (fun n => n * 10) 5 0 0 2 1
            none ⟨[], [], []⟩).summary.nextPage))) := by
  have hone : (if (true : Bool) = true then max 1 1 else 1) = 1 := rfl
  have hday : primeDay (fun _ _ => ([] : List SIssue)) (fun n => n * 10) 5 0 0
      1 [] ⟨[], [], []⟩ 0 1 = ⟨[(0, 1)], ⟨[], [], []⟩, 0, 1, none, false⟩ :=
    primeDay_empty _ _ _ _ _ _ _ _ _ _ (by omega) (by decide) rfl
  have hb' : 5 < (fun n => n * 10)
      ((primeDay (fun _ _ => ([] : List SIssue)) (fun n => n * 10) 5 0 0
        (if (true : Bool) = true then max 1 1 else 1) [] ⟨[], [], []⟩ 0
        1).calls.length) := by
    rw [hone, hday]
    decide
  have hrun : primeRun true (fun _ _ => ([] : List SIssue)) (fun n => n * 10)
      5 0 0 2 1 none ⟨[], [], []⟩
      = ⟨[(0, 1)], ⟨[], [], []⟩,
         { created := 0, updated := 0, fetched := 0, complete := false,
           nextPage := 1, nextDate := some 1 }⟩ := by
    rw [primeRun_fresh, primeLoop_susp _ _ _ _ _ _ _ _ _ _ _ _ (by omega) hb']
    rw [hone, hday]
    rfl
  refine ⟨⟨?_, ?_⟩, ?_⟩
  · rw [hrun]
  · rw [hrun]
  · exact prime_resume_correct (fun _ _ => []) (fun n => n * 10) 5 0 0 2
      ⟨[], [], []⟩ 1 (by rw [hrun]) (by rw [hrun])

end WeeklyPulls
